import Mathlib

/-
Verification of the pyphotobackups synchronization engine
(src/pyphotobackups/helpers.py and src/pyphotobackups/main.py).

The Python source is shallowly embedded: pure functions become Lean
functions, the sqlite ledger becomes an explicit list of rows with the
same key discipline, the filesystem copy becomes an explicit state map,
and exceptions become `Except` values.  External library calls
(piexif, PIL) are modeled as observations stored on the file record,
since their code is not part of this repository.
-/

set_option autoImplicit false

namespace Pyphotobackups

/-! ## Timestamps (datetime values and `strptime` for "%Y:%m:%d %H:%M:%S") -/

/-- A calendar timestamp, the shape produced by `datetime.strptime` with the
format `"%Y:%m:%d %H:%M:%S"` used throughout `helpers.py`. -/
structure DateTime where
  year : Nat
  month : Nat
  day : Nat
  hour : Nat
  minute : Nat
  second : Nat
deriving DecidableEq, Repr

/-- Python exceptions that the embedded code can raise. -/
inductive PyErr where
  | valueError
  | indexError
  | unicodeDecodeError
deriving DecidableEq, Repr

def isLeapYear (y : Nat) : Bool :=
  (y % 4 = 0 && y % 100 ≠ 0) || (y % 400 = 0)

def daysInMonth (y m : Nat) : Nat :=
  if m = 2 then (if isLeapYear y then 29 else 28)
  else if m = 4 ∨ m = 6 ∨ m = 9 ∨ m = 11 then 30
  else 31

def digitVal (c : Char) : Nat := c.toNat - 48

/-- Embedding of `datetime.strptime(s, "%Y:%m:%d %H:%M:%S")` on its canonical
19-character inputs: wrong shape or out-of-range fields raise `ValueError`. -/
def strptimeTs (s : String) : Except PyErr DateTime :=
  match s.toList with
  | [y1, y2, y3, y4, ':', mo1, mo2, ':', d1, d2, ' ', h1, h2, ':', mi1, mi2, ':', s1, s2] =>
    if [y1, y2, y3, y4, mo1, mo2, d1, d2, h1, h2, mi1, mi2, s1, s2].all Char.isDigit then
      let y := 1000 * digitVal y1 + 100 * digitVal y2 + 10 * digitVal y3 + digitVal y4
      let mo := 10 * digitVal mo1 + digitVal mo2
      let d := 10 * digitVal d1 + digitVal d2
      let h := 10 * digitVal h1 + digitVal h2
      let mi := 10 * digitVal mi1 + digitVal mi2
      let sec := 10 * digitVal s1 + digitVal s2
      if 1 ≤ mo ∧ mo ≤ 12 ∧ 1 ≤ d ∧ d ≤ daysInMonth y mo ∧ h ≤ 23 ∧ mi ≤ 59 ∧ sec ≤ 59 then
        .ok ⟨y, mo, d, h, mi, sec⟩
      else .error .valueError
    else .error .valueError
  | _ => .error .valueError

/-! ## Python string operations used by `helpers.py` -/

/-- Embedding of Python `str.split(".")` on character lists: splits at every
dot, keeping empty segments, and returns `[s]` when no dot occurs. -/
def splitOnDot : List Char → List (List Char)
  | [] => [[]]
  | c :: rest =>
    match splitOnDot rest with
    | [] => [[]]
    | s :: ss => if c = '.' then [] :: s :: ss else (c :: s) :: ss

def pySplitDot (s : String) : List String :=
  (splitOnDot s.toList).map (fun l => String.mk l)

/-- Embedding of `pathlib.Path(name).suffix`: the substring from the last dot
of the final component, empty when the dot is absent, leading, or trailing. -/
def pySuffix (name : String) : String :=
  let cs := name.toList
  let rev := cs.reverse
  let k := rev.findIdx (fun c => c = '.')
  if k = rev.length ∨ k = 0 ∨ k = rev.length - 1 then ""
  else String.mk ('.' :: (rev.take k).reverse)

/-- Embedding of Python `str.lower()` (character-wise, ASCII-relevant). -/
def pyLower (s : String) : String :=
  String.mk (s.toList.map Char.toLower)

/-- Embedding of `path.suffix.lower()[1:]` from `get_timestamp`. -/
def pyExt (name : String) : String :=
  String.mk (((pySuffix name).toList.map Char.toLower).drop 1)

/-! ## The per-file filter `is_unwanted_file` (helpers.py lines 107-111)

The Python body is:
```
ext = source.split(".")[1].lower()
if ext == "aae":
    return True
False
```
`source.split(".")[1]` raises `IndexError` when the source string holds no
dot; the final line `False` is a bare expression, so the function returns
`None` (not `False`) in the non-excluded case. -/
def is_unwanted_file (source : String) : Except PyErr (Option Bool) :=
  match pySplitDot source with
  | _ :: ext :: _ => if pyLower ext = "aae" then .ok (some true) else .ok none
  | _ => .error .indexError

/-! ## The sync ledger (sqlite tables from `init_db`, helpers.py lines 57-104)

`init_db` creates `sync(source TEXT PRIMARY KEY, dest, timestamp,
inserted_at)`; the engine reads it with `is_processed_source` (a COUNT by
`source`) and writes it with `INSERT OR IGNORE`. -/

/-- One row of the `sync` table. The primary key is `source`. -/
structure SyncRow where
  source : String
  dest : String
  ts : DateTime
  insertedAt : Nat
deriving DecidableEq, Repr

/-- The persistent store state visible to the engine: the `sync` table rows
in insertion order. -/
structure Db where
  sync : List SyncRow
deriving DecidableEq, Repr

def sourcesOf (db : Db) : List String := db.sync.map (fun r => r.source)

/-- Embedding of `is_processed_source` (helpers.py lines 96-104):
`SELECT COUNT(*) FROM sync WHERE source = ?` compared with 0. -/
def is_processed_source (source : String) (db : Db) : Bool :=
  db.sync.any (fun r => r.source = source)

/-- Embedding of the engine's only write to `sync` (helpers.py lines 332-343):
`INSERT OR IGNORE INTO sync ...` keyed on the `source` primary key, followed
by an immediate commit. -/
def insertOrIgnoreSync (db : Db) (r : SyncRow) : Db :=
  if db.sync.any (fun q => q.source = r.source) then db
  else ⟨db.sync ++ [r]⟩

/-! ## Database schema model (`init_db`, helpers.py lines 57-93) -/

/-- A sqlite table schema: name, ordered column names, and primary key. -/
structure TableSchema where
  name : String
  columns : List String
  primaryKey : String
deriving DecidableEq, Repr

/-- The `sync` table exactly as created by `init_db`. -/
def syncTableSchema : TableSchema :=
  ⟨"sync", ["source", "dest", "timestamp", "inserted_at"], "source"⟩

/-- The `run` table exactly as created by `init_db`. -/
def runTableSchema : TableSchema :=
  ⟨"run",
   ["id", "serial_number", "dest", "start", "end", "elapsed_time", "exit_code",
    "dest_size", "dest_size_increment", "new_sync"],
   "id"⟩

/-- The `sync` schema the specification claims (fingerprint as primary key). -/
def specClaimedSyncSchema : TableSchema :=
  ⟨"sync", ["fingerprint", "source", "dest", "timestamp", "inserted_at"], "fingerprint"⟩

/-- The `run` schema the specification claims. -/
def specClaimedRunSchema : TableSchema :=
  ⟨"run",
   ["id", "source", "dest", "start", "end", "elapsed_time",
    "dest_size", "dest_size_increment", "new_sync"],
   "id"⟩

/-- Embedding of sqlite `CREATE TABLE IF NOT EXISTS`: a no-op when a table of
the same name already exists. -/
def createTableIfNotExists (tables : List TableSchema) (t : TableSchema) : List TableSchema :=
  if tables.any (fun u => u.name = t.name) then tables else tables ++ [t]

/-- Embedding of `init_db` (helpers.py lines 57-93): issues the two
`CREATE TABLE IF NOT EXISTS` statements, `sync` first, then `run`. -/
def init_db (tables : List TableSchema) : List TableSchema :=
  createTableIfNotExists (createTableIfNotExists tables syncTableSchema) runTableSchema

def hasTable (tables : List TableSchema) (n : String) : Bool :=
  tables.any (fun u => u.name = n)

/-! ## PNG metadata extractor (`get_timestamp_by_png_metadata`, helpers.py 165-188)

File contents are byte lists (each byte a `Nat` below 256).  The Python code
verifies the 8-byte signature, then loops: read a 4-byte big-endian length,
a 4-byte ASCII chunk type, `length` payload bytes, and 4 CRC bytes; inside
an `eXIf` chunk it searches for the first 19-byte substring shaped like
`dddd:dd:dd dd:dd:dd` and parses it with `strptime`.  Reads past the end of
file return short byte strings, so a truncated stream falls out of the loop
and yields `None`. -/

def pngSignature : List Nat := [137, 80, 78, 71, 13, 10, 26, 10]

/-- The four ASCII bytes of the chunk type `"eXIf"`. -/
def eXIfChunkType : List Nat := [101, 88, 73, 102]

/-- Embedding of `int.from_bytes(bs, byteorder="big")`. -/
def fromBytesBE (bs : List Nat) : Nat :=
  bs.foldl (fun a b => a * 256 + b) 0

def isDigitByte (b : Nat) : Bool := decide (48 ≤ b ∧ b ≤ 57)

/-- Whether a byte list starts with a match of the regex
`\d\d\d\d:\d\d:\d\d \d\d:\d\d:\d\d` (58 is ':', 32 is ' '). -/
def matches19 (l : List Nat) : Bool :=
  match l with
  | b0 :: b1 :: b2 :: b3 :: b4 :: b5 :: b6 :: b7 :: b8 :: b9 :: b10 :: b11 :: b12 ::
      b13 :: b14 :: b15 :: b16 :: b17 :: b18 :: _ =>
    isDigitByte b0 && isDigitByte b1 && isDigitByte b2 && isDigitByte b3 &&
    decide (b4 = 58) && isDigitByte b5 && isDigitByte b6 && decide (b7 = 58) &&
    isDigitByte b8 && isDigitByte b9 && decide (b10 = 32) &&
    isDigitByte b11 && isDigitByte b12 && decide (b13 = 58) &&
    isDigitByte b14 && isDigitByte b15 && decide (b16 = 58) &&
    isDigitByte b17 && isDigitByte b18
  | _ => false

/-- Embedding of `re.search` for the datetime pattern: returns the leftmost
19-byte match inside the payload. -/
def searchTs : List Nat → Option (List Nat)
  | [] => none
  | b :: rest =>
    if matches19 (b :: rest) then some ((b :: rest).take 19)
    else searchTs rest

/-- Decode the matched bytes (`match.group().decode()`) and parse them with
`strptime`. -/
def parseTsBytes (bs : List Nat) : Except PyErr DateTime :=
  strptimeTs (String.mk (bs.map Char.ofNat))

/-- The chunk-reading `while True` loop of `get_timestamp_by_png_metadata`,
operating on the bytes that follow the signature.  A read of fewer than 4
length bytes breaks the loop; a chunk type holding a byte outside ASCII
makes `.decode("ascii")` raise. -/
def pngChunkLoop (rest : List Nat) : Except PyErr (Option DateTime) :=
  if _h : rest.length < 4 then .ok none
  else if ((rest.drop 4).take 4).any (fun b => 128 ≤ b) then .error .unicodeDecodeError
  else if (rest.drop 4).take 4 = eXIfChunkType then
    match searchTs (((rest.drop 4).drop 4).take (fromBytesBE (rest.take 4))) with
    | some m => (parseTsBytes m).map some
    | none => pngChunkLoop ((((rest.drop 4).drop 4).drop (fromBytesBE (rest.take 4))).drop 4)
  else pngChunkLoop ((((rest.drop 4).drop 4).drop (fromBytesBE (rest.take 4))).drop 4)
termination_by rest.length
decreasing_by
  all_goals simp_wf
  all_goals omega

/-- Embedding of `get_timestamp_by_png_metadata` (helpers.py 165-188) over the
file's byte contents.  A malformed signature raises `ValueError`. -/
def get_timestamp_by_png_metadata (content : List Nat) : Except PyErr (Option DateTime) :=
  if content.take 8 = pngSignature then pngChunkLoop (content.drop 8)
  else .error .valueError

/-! ## Files and the remaining extractors (helpers.py 191-230)

The JPEG and HEIC extractors delegate the container parsing to the external
libraries piexif and PIL, which are not part of this repository; their
observable outcomes are therefore fields of the file record:
`exifLoadFails` / `heicOpenFails` model the library call itself raising, and
`exifDTO` / `heicDT` model the string value of the requested EXIF tag when
present.  The PNG path and everything after the library call are embedded
from the source. -/

structure File where
  name : String
  content : List Nat
  /-- The filesystem modification time (`path.stat().st_mtime`). -/
  mtime : DateTime
  /-- Whether `piexif.load` raises on this file. -/
  exifLoadFails : Bool
  /-- The `DateTimeOriginal` EXIF tag as reported by piexif, when present. -/
  exifDTO : Option String
  /-- Whether `PIL.Image.open` raises on this file. -/
  heicOpenFails : Bool
  /-- The `DateTime` EXIF tag as reported by PIL, when present. -/
  heicDT : Option String
deriving DecidableEq, Repr

/-- Embedding of `get_timestamp_by_jpeg_metadata` (helpers.py 191-196). -/
def get_timestamp_by_jpeg_metadata (f : File) : Except PyErr (Option DateTime) :=
  if f.exifLoadFails then .error .valueError
  else
    match f.exifDTO with
    | some s => (strptimeTs s).map some
    | none => .ok none

/-- Embedding of `get_timestamp_by_heic_metadata` (helpers.py 199-207). -/
def get_timestamp_by_heic_metadata (f : File) : Except PyErr (Option DateTime) :=
  if f.heicOpenFails then .error .valueError
  else
    match f.heicDT with
    | some s => (strptimeTs s).map some
    | none => .ok none

/-- Embedding of `get_timestamp_by_file_system` (helpers.py 210-213). -/
def get_timestamp_by_file_system (f : File) : DateTime := f.mtime

/-- The `if timestamp is None: timestamp = get_timestamp_by_file_system(path)`
step of `get_timestamp`: `None` falls back to the modification time, a raised
exception propagates. -/
def fallbackOnNone (r : Except PyErr (Option DateTime)) (f : File) : Except PyErr DateTime :=
  match r with
  | .error e => .error e
  | .ok none => .ok (get_timestamp_by_file_system f)
  | .ok (some t) => .ok t

/-- The format-specific extractor `get_timestamp` dispatches to, when the
extension has one (`func_mapping.get(ext, ...)`). -/
def structuredResult (f : File) : Option (Except PyErr (Option DateTime)) :=
  match pyExt f.name with
  | "jpg" => some (get_timestamp_by_jpeg_metadata f)
  | "jpeg" => some (get_timestamp_by_jpeg_metadata f)
  | "png" => some (get_timestamp_by_png_metadata f.content)
  | "heic" => some (get_timestamp_by_heic_metadata f)
  | _ => none

/-- Embedding of `get_timestamp` (helpers.py 216-230): dispatch on the
lowercased extension, with the filesystem time as the default entry of
`func_mapping` and as the fallback for a `None` extractor result.  There is
no exception handler in the source, so extractor exceptions propagate. -/
def get_timestamp (f : File) : Except PyErr DateTime :=
  match structuredResult f with
  | some r => fallbackOnNone r f
  | none => .ok (get_timestamp_by_file_system f)

/-! ## The atomic transfer step (helpers.py 317-320)

```
with tempfile.NamedTemporaryFile(dir=target_subdir, delete=False) as temp_file:
    shutil.copy2(file_path, temp_file.name)
    os.replace(temp_file.name, target_file_path)
```
The copy is decomposed into observable micro-steps over the two paths the
code touches in the destination directory: create the temporary file, append
the source bytes to it one at a time (`shutil.copy2` streams the contents),
and finally rename the temporary path onto the final path (`os.replace`,
atomic within one directory).  A failure during the write phase corresponds
to executing only a prefix of the step list. -/

inductive TransferStep where
  | createTemp
  | writeByte (b : Nat)
  | rename
deriving DecidableEq, Repr

/-- The destination directory state seen during one transfer: the contents at
the final path and at the temporary path, when those files exist. -/
structure TransferFs where
  final : Option (List Nat)
  temp : Option (List Nat)
deriving DecidableEq, Repr

def applyStep (fs : TransferFs) : TransferStep → TransferFs
  | .createTemp => { fs with temp := some [] }
  | .writeByte b =>
    match fs.temp with
    | some c => { fs with temp := some (c ++ [b]) }
    | none => fs
  | .rename =>
    match fs.temp with
    | some c => { final := some c, temp := none }
    | none => fs

/-- The step sequence of one complete transfer of `src`. -/
def transferSteps (src : List Nat) : List TransferStep :=
  .createTemp :: src.map TransferStep.writeByte ++ [.rename]

def runSteps (fs : TransferFs) (steps : List TransferStep) : TransferFs :=
  steps.foldl applyStep fs

/-! ## The sync engine (`process_dir_recursively`, helpers.py 253-353)

The source tree is a directory tree of named directories and files; the
destination tree and sqlite connection are explicit state.  The engine is
embedded with a fuel argument so that it is structurally recursive (and so
evaluates inside the kernel); theorems carry a `fuelEnough` hypothesis and
`fuelOut` marks the artificial out-of-fuel outcome, which a sufficiently
fueled run never produces.

The run environment supplies the two asynchronous aspects of a run: whether
a `KeyboardInterrupt` arrives at the start of a given (global) file
iteration, and whether the copy of a given source file raises an `OSError`
with a given errno.  Exceptions follow the source's handlers: the frame's
`except KeyboardInterrupt` turns an interrupt into exit code 1, its
`except OSError` turns errno 5 (EIO) into exit code 2 and re-raises other
errnos, and the inner handler around the copy turns errno 13 (EACCES) and
28 (ENOSPC) into the `Abort` exception, which no frame catches. -/

inductive DirTree where
  | node (name : String) (subdirs : List DirTree) (files : List File)
deriving Repr

def DirTree.name : DirTree → String
  | .node n _ _ => n

def DirTree.subdirs : DirTree → List DirTree
  | .node _ subs _ => subs

def DirTree.files : DirTree → List File
  | .node _ _ fs => fs

/-- Lexicographic comparison of strings by character code, the order in
which Python compares the path strings in `sorted(dirs)`. -/
def charListLe : List Char → List Char → Bool
  | [], _ => true
  | _ :: _, [] => false
  | a :: as, b :: bs => if a = b then charListLe as bs else decide (a < b)

def strLe (a b : String) : Bool := charListLe a.toList b.toList

/-- Insert a tree into a name-sorted list of trees (`sorted(dirs)`). -/
def insertByName (t : DirTree) : List DirTree → List DirTree
  | [] => [t]
  | u :: us => if strLe t.name u.name then t :: u :: us else u :: insertByName t us

/-- Embedding of `dirs = sorted(dirs)` (helpers.py 284). -/
def sortDirs (ts : List DirTree) : List DirTree :=
  ts.foldr insertByName []

/-- The run environment: interrupt schedule and per-source copy failures. -/
structure Env where
  interruptAt : Nat → Bool
  copyErrno : String → Option Nat

def noInterruptEnv : Env := ⟨fun _ => false, fun _ => none⟩

/-- The destination tree: relative path (month folder slash file name) to
byte contents. `os.replace` overwrites an existing entry. -/
abbrev DestFs := List (String × List Nat)

def destWrite (fs : DestFs) (p : String) (c : List Nat) : DestFs :=
  if fs.any (fun e => e.1 = p) then
    fs.map (fun e => if e.1 = p then (p, c) else e)
  else fs ++ [(p, c)]

/-- The state shared across stack frames: the committed database, the
destination tree, the global file-iteration counter (for the interrupt
schedule) and the `datetime.now()` counter for `inserted_at`. -/
structure Glob where
  db : Db
  dest : DestFs
  iter : Nat
  now : Nat
deriving DecidableEq, Repr

/-- Exceptions that can be in flight inside `process_dir_recursively`. -/
inductive Raised where
  | keyboardInterrupt
  | abort
  | pyErr (e : PyErr)
  | osErr (eno : Nat)
  | fuelOut
deriving DecidableEq, Repr

/-- The `source = str(Path(*file_path.parts[-2:]))` string: immediate parent
directory name joined with the file name. -/
def mkSource (parent : String) (f : File) : String := parent ++ "/" ++ f.name

def pad2 (n : Nat) : String := if n < 10 then "0" ++ toString n else toString n

/-- Embedding of `file_timestamp.strftime("%Y-%m")`. -/
def year_month (t : DateTime) : String := toString t.year ++ "-" ++ pad2 t.month

/-- The destination-relative path `str(Path(*target_file_path.parts[-2:]))`. -/
def destRelPath (t : DateTime) (fileName : String) : String :=
  year_month t ++ "/" ++ fileName

/-- The `try` body's file loop (helpers.py 298-343).  Returns the exception
that escaped the loop, if any, together with the shared state and this
frame's `processed` / `size_increment` locals at that moment. -/
def fileLoop (env : Env) (parent : String) :
    List File → Glob → Nat → Nat → Option Raised × Glob × Nat × Nat
  | [], g, p, s => (none, g, p, s)
  | f :: rest, g, p, s =>
    if env.interruptAt g.iter then (some .keyboardInterrupt, g, p, s)
    else
      let g1 : Glob := { g with iter := g.iter + 1 }
      let source := mkSource parent f
      match is_unwanted_file source with
      | .error e => (some (.pyErr e), g1, p, s)
      | .ok (some _) => fileLoop env parent rest g1 p s
      | .ok none =>
        if is_processed_source source g1.db then fileLoop env parent rest g1 p s
        else
          match get_timestamp f with
          | .error e => (some (.pyErr e), g1, p, s)
          | .ok t =>
            match env.copyErrno source with
            | some eno =>
              if eno = 13 ∨ eno = 28 then (some .abort, g1, p, s)
              else (some (.osErr eno), g1, p, s)
            | none =>
              let target := destRelPath t f.name
              let g2 : Glob :=
                { g1 with
                  dest := destWrite g1.dest target f.content
                  db := insertOrIgnoreSync g1.db ⟨source, target, t, g1.now⟩
                  now := g1.now + 1 }
              fileLoop env parent rest g2 (p + 1) (s + f.content.length)

/-- The frame's exception handlers (helpers.py 344-352): an interrupt becomes
exit code 1, an `OSError` with errno 5 becomes exit code 2, any other
exception is re-raised to the caller. -/
def handleRaised (r : Raised) (g : Glob) (p s : Nat) :
    Except (Raised × Glob × Nat × Nat) (Nat × Nat × Nat × Glob) :=
  match r with
  | .keyboardInterrupt => .ok (1, p, s, g)
  | .osErr eno => if eno = 5 then .ok (2, p, s, g) else .error (.osErr eno, g, p, s)
  | r' => .error (r', g, p, s)

/-- A pending engine activity: one call of `process_dir_recursively` on a
directory, or the remainder of a frame's loop over its (sorted) subdirectories. -/
inductive Task where
  | tree (t : DirTree)
  | dirs (ts : List DirTree)

/-- The engine.  `Task.tree t` is one call of `process_dir_recursively` on
directory `t`: loop over the sorted subdirectories first (depth first,
short-circuiting on a nonzero exit code), then over the directory's own
files, converting escaped exceptions with this frame's handlers.
`Task.dirs ts` is that subdirectory loop.  Errors carry the shared state and
the raising frame's locals. -/
def engineF (env : Env) :
    Nat → Task → Glob → Nat → Nat →
    Except (Raised × Glob × Nat × Nat) (Nat × Nat × Nat × Glob)
  | 0, _, g, p, s => .error (.fuelOut, g, p, s)
  | _ + 1, .dirs [], g, p, s => .ok (0, p, s, g)
  | fuel + 1, .dirs (t :: rest), g, p, s =>
    match engineF env fuel (.tree t) g p s with
    | .error (r, g', _, _) => .error (r, g', p, s)
    | .ok (ec, p', s', g') =>
      if ec ≠ 0 then .ok (ec, p', s', g')
      else engineF env fuel (.dirs rest) g' p' s'
  | fuel + 1, .tree t, g, p, s =>
    match engineF env fuel (.dirs (sortDirs t.subdirs)) g p s with
    | .error (.fuelOut, g', p', s') => .error (.fuelOut, g', p', s')
    | .error (r, g', p', s') => handleRaised r g' p' s'
    | .ok (ec, p', s', g') =>
      if ec ≠ 0 then .ok (ec, p', s', g')
      else
        match fileLoop env t.name t.files g' p' s' with
        | (none, g2, p2, s2) => .ok (0, p2, s2, g2)
        | (some r, g2, p2, s2) => handleRaised r g2 p2 s2

/-- Embedding of `process_dir_recursively(source_dir, target_dir, conn,
processed, size_increment)` (helpers.py 253-353), with explicit fuel. -/
def process_dir_recursively (env : Env) (fuel : Nat) (t : DirTree) (g : Glob)
    (p s : Nat) : Except (Raised × Glob × Nat × Nat) (Nat × Nat × Nat × Glob) :=
  engineF env fuel (.tree t) g p s

/-- Fuel sufficiency for a task, mirroring the recursion of `engineF`. -/
def fuelEnough : Nat → Task → Bool
  | 0, _ => false
  | _ + 1, .dirs [] => true
  | fuel + 1, .dirs (t :: rest) =>
    fuelEnough fuel (.tree t) && fuelEnough fuel (.dirs rest)
  | fuel + 1, .tree t => fuelEnough fuel (.dirs (sortDirs t.subdirs))

/-- Total size of a list of files, as summed by `file_path.stat().st_size`. -/
def sizesOf (fs : List File) : Nat := (fs.map (fun f => f.content.length)).sum

/-- Projection of an engine result onto the shared state it carries. -/
def resultGlob : Except (Raised × Glob × Nat × Nat) (Nat × Nat × Nat × Glob) → Glob
  | .ok (_, _, _, g) => g
  | .error (_, g, _, _) => g

/-! ## Classification of a file iteration, as Boolean observations on the state -/

/-- A source string is settled for a database when the file loop will skip it:
either the filter excludes it, or its source path is already recorded. -/
def settledB (db : Db) (src : String) : Bool :=
  match is_unwanted_file src with
  | .ok (some _) => true
  | .ok none => is_processed_source src db
  | .error _ => false

/-- Whether `get_timestamp` succeeds on the file. -/
def tsOkB (f : File) : Bool :=
  match get_timestamp f with
  | .ok _ => true
  | .error _ => false

/-- Whether the filter passes the file through (returns `None`). -/
def unwantedNoneB (src : String) : Bool :=
  match is_unwanted_file src with
  | .ok none => true
  | _ => false

/-- A file the loop will fully process: the filter passes it, its source path
is not yet recorded, and its timestamp resolves. -/
def cleanB (db : Db) (parent : String) (f : File) : Bool :=
  unwantedNoneB (mkSource parent f) && !is_processed_source (mkSource parent f) db && tsOkB f

/-- Database growth: the engine only ever appends `sync` rows. -/
def dbExtends (d1 d2 : Db) : Prop := ∃ tail, d2.sync = d1.sync ++ tail

/-! ## Ledger lemmas -/

theorem dbExtends_refl (d : Db) : dbExtends d d := ⟨[], by simp⟩

theorem dbExtends_trans {d1 d2 d3 : Db} (h1 : dbExtends d1 d2) (h2 : dbExtends d2 d3) :
    dbExtends d1 d3 := by
  obtain ⟨t1, h1⟩ := h1
  obtain ⟨t2, h2⟩ := h2
  exact ⟨t1 ++ t2, by simp [h2, h1]⟩

theorem dbExtends_insert (d : Db) (r : SyncRow) : dbExtends d (insertOrIgnoreSync d r) := by
  unfold insertOrIgnoreSync
  split
  · exact dbExtends_refl d
  · exact ⟨[r], rfl⟩

theorem is_processed_source_mono {d1 d2 : Db} (src : String) (h : dbExtends d1 d2)
    (hp : is_processed_source src d1 = true) : is_processed_source src d2 = true := by
  obtain ⟨tail, ht⟩ := h
  unfold is_processed_source at *
  rw [ht, List.any_append, hp]
  rfl

theorem settledB_mono {d1 d2 : Db} (src : String) (h : dbExtends d1 d2)
    (hs : settledB d1 src = true) : settledB d2 src = true := by
  unfold settledB at hs ⊢
  split at hs
  next => rfl
  next => exact is_processed_source_mono src h hs
  next => exact absurd hs (by simp)

theorem insertOrIgnoreSync_processed_self (db : Db) (r : SyncRow) :
    is_processed_source r.source (insertOrIgnoreSync db r) = true := by
  unfold insertOrIgnoreSync is_processed_source
  split
  next hc => exact hc
  next => simp

theorem insertOrIgnoreSync_absent (db : Db) (r : SyncRow)
    (h : is_processed_source r.source db = false) :
    (insertOrIgnoreSync db r).sync = db.sync ++ [r] := by
  unfold insertOrIgnoreSync
  rw [show (db.sync.any fun q => q.source = r.source) = false from h]
  rfl

theorem insertOrIgnoreSync_present (db : Db) (r : SyncRow)
    (h : is_processed_source r.source db = true) :
    insertOrIgnoreSync db r = db := by
  unfold insertOrIgnoreSync
  rw [show (db.sync.any fun q => q.source = r.source) = true from h]
  rfl

theorem is_processed_source_iff_mem (src : String) (db : Db) :
    is_processed_source src db = true ↔ src ∈ sourcesOf db := by
  unfold is_processed_source sourcesOf
  rw [List.any_eq_true]
  constructor
  · rintro ⟨r, hr, he⟩
    exact List.mem_map.mpr ⟨r, hr, by simpa using he⟩
  · intro hm
    obtain ⟨r, hr, he⟩ := List.mem_map.mp hm
    exact ⟨r, hr, by simpa using he⟩

theorem sourcesOf_insert_absent (db : Db) (r : SyncRow)
    (h : is_processed_source r.source db = false) :
    sourcesOf (insertOrIgnoreSync db r) = sourcesOf db ++ [r.source] := by
  unfold sourcesOf
  rw [insertOrIgnoreSync_absent db r h, List.map_append]
  rfl

/-! ## Single-step behavior of the file loop -/

/-- A file whose source path the filter excludes is skipped: no copy, no
record, no counter change. -/
theorem fileLoop_step_unwanted (env : Env) (parent : String) (f : File)
    (rest : List File) (g : Glob) (p s : Nat)
    (h : is_unwanted_file (mkSource parent f) = .ok (some true)) :
    fileLoop env parent (f :: rest) g p s =
      if env.interruptAt g.iter then (some .keyboardInterrupt, g, p, s)
      else fileLoop env parent rest { g with iter := g.iter + 1 } p s := by
  simp only [fileLoop, h]

/-- A file whose source path is already recorded is skipped silently: the
decision consults only the source string and the ledger. -/
theorem fileLoop_step_processed (env : Env) (parent : String) (f : File)
    (rest : List File) (g : Glob) (p s : Nat)
    (hu : is_unwanted_file (mkSource parent f) = .ok none)
    (hp : is_processed_source (mkSource parent f) g.db = true) :
    fileLoop env parent (f :: rest) g p s =
      if env.interruptAt g.iter then (some .keyboardInterrupt, g, p, s)
      else fileLoop env parent rest { g with iter := g.iter + 1 } p s := by
  simp only [fileLoop, hu, hp, if_true]

/-- A new file is fully processed: copied to its month folder, the counters
advance, and a `sync` row keyed by its source path is committed. -/
theorem fileLoop_step_process (env : Env) (parent : String) (f : File)
    (rest : List File) (g : Glob) (p s : Nat) (t : DateTime)
    (hni : env.interruptAt g.iter = false)
    (hu : is_unwanted_file (mkSource parent f) = .ok none)
    (hp : is_processed_source (mkSource parent f) g.db = false)
    (ht : get_timestamp f = .ok t)
    (hc : env.copyErrno (mkSource parent f) = none) :
    fileLoop env parent (f :: rest) g p s =
      fileLoop env parent rest
        { g with
          iter := g.iter + 1
          dest := destWrite g.dest (destRelPath t f.name) f.content
          db := insertOrIgnoreSync g.db ⟨mkSource parent f, destRelPath t f.name, t, g.now⟩
          now := g.now + 1 }
        (p + 1) (s + f.content.length) := by
  simp only [fileLoop, hni, hu, hp, ht, hc, Bool.false_eq_true, if_false]

/-- An interrupt arriving at the head of the loop escapes immediately. -/
theorem fileLoop_step_interrupt (env : Env) (parent : String) (f : File)
    (rest : List File) (g : Glob) (p s : Nat)
    (hI : env.interruptAt g.iter = true) :
    fileLoop env parent (f :: rest) g p s = (some .keyboardInterrupt, g, p, s) := by
  simp only [fileLoop, hI, if_true]

/-- A dotless source name makes the filter raise `IndexError`, which escapes
the loop. -/
theorem fileLoop_step_filter_raises (env : Env) (parent : String) (f : File)
    (rest : List File) (g : Glob) (p s : Nat) (e : PyErr)
    (hni : env.interruptAt g.iter = false)
    (hu : is_unwanted_file (mkSource parent f) = .error e) :
    fileLoop env parent (f :: rest) g p s =
      (some (.pyErr e), { g with iter := g.iter + 1 }, p, s) := by
  simp only [fileLoop, hni, hu, Bool.false_eq_true, if_false]

/-- A raising timestamp resolver escapes the loop. -/
theorem fileLoop_step_ts_raises (env : Env) (parent : String) (f : File)
    (rest : List File) (g : Glob) (p s : Nat) (e : PyErr)
    (hni : env.interruptAt g.iter = false)
    (hu : is_unwanted_file (mkSource parent f) = .ok none)
    (hp : is_processed_source (mkSource parent f) g.db = false)
    (ht : get_timestamp f = .error e) :
    fileLoop env parent (f :: rest) g p s =
      (some (.pyErr e), { g with iter := g.iter + 1 }, p, s) := by
  simp only [fileLoop, hni, hu, hp, ht, Bool.false_eq_true, if_false]

/-- A copy failing with EACCES or ENOSPC raises `Abort`. -/
theorem fileLoop_step_copy_abort (env : Env) (parent : String) (f : File)
    (rest : List File) (g : Glob) (p s : Nat) (t : DateTime) (eno : Nat)
    (hni : env.interruptAt g.iter = false)
    (hu : is_unwanted_file (mkSource parent f) = .ok none)
    (hp : is_processed_source (mkSource parent f) g.db = false)
    (ht : get_timestamp f = .ok t)
    (hc : env.copyErrno (mkSource parent f) = some eno)
    (he : eno = 13 ∨ eno = 28) :
    fileLoop env parent (f :: rest) g p s =
      (some .abort, { g with iter := g.iter + 1 }, p, s) := by
  simp only [fileLoop, hni, hu, hp, ht, hc, he, Bool.false_eq_true, if_false, if_pos]

/-- A copy failing with any other errno re-raises the `OSError`. -/
theorem fileLoop_step_copy_oserror (env : Env) (parent : String) (f : File)
    (rest : List File) (g : Glob) (p s : Nat) (t : DateTime) (eno : Nat)
    (hni : env.interruptAt g.iter = false)
    (hu : is_unwanted_file (mkSource parent f) = .ok none)
    (hp : is_processed_source (mkSource parent f) g.db = false)
    (ht : get_timestamp f = .ok t)
    (hc : env.copyErrno (mkSource parent f) = some eno)
    (he : ¬(eno = 13 ∨ eno = 28)) :
    fileLoop env parent (f :: rest) g p s =
      (some (.osErr eno), { g with iter := g.iter + 1 }, p, s) := by
  simp only [fileLoop, hni, hu, hp, ht, hc, Bool.false_eq_true, if_false]
  rw [if_neg he]

/-! ## Inductive facts about the file loop -/

/-- The filter's only truthy result is `True`: a `some` value is `some true`. -/
theorem is_unwanted_file_ok_bool (src : String) (b : Bool)
    (h : is_unwanted_file src = .ok (some b)) : b = true := by
  unfold is_unwanted_file at h
  split at h
  · split at h
    · simp at h; exact h
    · simp at h
  · simp at h

/-- The file loop only appends `sync` rows: whatever happens, the rows the
loop started from are still there, in order, when it stops. -/
theorem fileLoop_extends (env : Env) (parent : String) :
    ∀ (files : List File) (g : Glob) (p s : Nat),
      dbExtends g.db (fileLoop env parent files g p s).2.1.db := by
  intro files
  induction files with
  | nil => intro g p s; exact dbExtends_refl _
  | cons f rest ih =>
    intro g p s
    by_cases hI : env.interruptAt g.iter = true
    · rw [fileLoop_step_interrupt env parent f rest g p s hI]
      exact dbExtends_refl _
    · have hni : env.interruptAt g.iter = false := by simpa using hI
      cases hu : is_unwanted_file (mkSource parent f) with
      | error e =>
        rw [fileLoop_step_filter_raises env parent f rest g p s e hni hu]
        exact dbExtends_refl _
      | ok o =>
        cases o with
        | some b =>
          have hb := is_unwanted_file_ok_bool (mkSource parent f) b hu
          subst hb
          rw [fileLoop_step_unwanted env parent f rest g p s hu, if_neg hI]
          exact ih _ p s
        | none =>
          cases hp : is_processed_source (mkSource parent f) g.db with
          | true =>
            rw [fileLoop_step_processed env parent f rest g p s hu hp, if_neg hI]
            exact ih _ p s
          | false =>
            cases ht : get_timestamp f with
            | error e =>
              rw [fileLoop_step_ts_raises env parent f rest g p s e hni hu hp ht]
              exact dbExtends_refl _
            | ok t =>
              cases hc : env.copyErrno (mkSource parent f) with
              | some eno =>
                by_cases he : eno = 13 ∨ eno = 28
                · rw [fileLoop_step_copy_abort env parent f rest g p s t eno hni hu hp ht hc he]
                  exact dbExtends_refl _
                · rw [fileLoop_step_copy_oserror env parent f rest g p s t eno hni hu hp ht hc he]
                  exact dbExtends_refl _
              | none =>
                rw [fileLoop_step_process env parent f rest g p s t hni hu hp ht hc]
                exact dbExtends_trans (dbExtends_insert g.db _) (ih _ (p + 1) _)

/-- After a clean pass (`none` escaped), every file of the list is settled in
the resulting database. -/
theorem fileLoop_post (env : Env) (parent : String) :
    ∀ (files : List File) (g g' : Glob) (p s p' s' : Nat),
      fileLoop env parent files g p s = (none, g', p', s') →
      ∀ f ∈ files, settledB g'.db (mkSource parent f) = true := by
  intro files
  induction files with
  | nil => intro g g' p s p' s' _ f hf; exact absurd hf (List.not_mem_nil f)
  | cons f0 rest ih =>
    intro g g' p s p' s' hrun f hf
    by_cases hI : env.interruptAt g.iter = true
    · rw [fileLoop_step_interrupt env parent f0 rest g p s hI] at hrun
      exact absurd hrun (by simp)
    · have hni : env.interruptAt g.iter = false := by simpa using hI
      cases hu : is_unwanted_file (mkSource parent f0) with
      | error e =>
        rw [fileLoop_step_filter_raises env parent f0 rest g p s e hni hu] at hrun
        exact absurd hrun (by simp)
      | ok o =>
        cases o with
        | some b =>
          have hb := is_unwanted_file_ok_bool _ b hu
          subst hb
          rw [fileLoop_step_unwanted env parent f0 rest g p s hu, if_neg hI] at hrun
          rcases List.mem_cons.mp hf with hf0 | hfr
          · subst hf0
            unfold settledB
            rw [hu]
          · exact ih _ _ p s p' s' hrun f hfr
        | none =>
          cases hp : is_processed_source (mkSource parent f0) g.db with
          | true =>
            rw [fileLoop_step_processed env parent f0 rest g p s hu hp, if_neg hI] at hrun
            rcases List.mem_cons.mp hf with hf0 | hfr
            · subst hf0
              have hext : dbExtends g.db g'.db := by
                have h2 := fileLoop_extends env parent rest { g with iter := g.iter + 1 } p s
                rw [hrun] at h2
                exact h2
              unfold settledB
              rw [hu]
              exact is_processed_source_mono _ hext hp
            · exact ih _ _ p s p' s' hrun f hfr
          | false =>
            cases ht : get_timestamp f0 with
            | error e =>
              rw [fileLoop_step_ts_raises env parent f0 rest g p s e hni hu hp ht] at hrun
              exact absurd hrun (by simp)
            | ok t =>
              cases hc : env.copyErrno (mkSource parent f0) with
              | some eno =>
                by_cases he : eno = 13 ∨ eno = 28
                · rw [fileLoop_step_copy_abort env parent f0 rest g p s t eno hni hu hp ht hc he]
                    at hrun
                  exact absurd hrun (by simp)
                · rw [fileLoop_step_copy_oserror env parent f0 rest g p s t eno hni hu hp ht hc he]
                    at hrun
                  exact absurd hrun (by simp)
              | none =>
                rw [fileLoop_step_process env parent f0 rest g p s t hni hu hp ht hc] at hrun
                rcases List.mem_cons.mp hf with hf0 | hfr
                · subst hf0
                  have hins := insertOrIgnoreSync_processed_self g.db
                    ⟨mkSource parent f, destRelPath t f.name, t, g.now⟩
                  have hext : dbExtends (insertOrIgnoreSync g.db
                      ⟨mkSource parent f, destRelPath t f.name, t, g.now⟩) g'.db := by
                    have h2 := fileLoop_extends env parent rest
                      { g with
                        iter := g.iter + 1
                        dest := destWrite g.dest (destRelPath t f.name) f.content
                        db := insertOrIgnoreSync g.db
                          ⟨mkSource parent f, destRelPath t f.name, t, g.now⟩
                        now := g.now + 1 } (p + 1) (s + f.content.length)
                    rw [hrun] at h2
                    exact h2
                  unfold settledB
                  rw [hu]
                  exact is_processed_source_mono _ hext hins
                · exact ih _ _ (p + 1) (s + f0.content.length) p' s' hrun f hfr

/-- When nothing interrupts and every file is settled, the loop is a no-op on
database, destination and counters. -/
theorem fileLoop_settled (env : Env) (parent : String)
    (hni : ∀ i, env.interruptAt i = false) :
    ∀ (files : List File) (g : Glob) (p s : Nat),
      (∀ f ∈ files, settledB g.db (mkSource parent f) = true) →
      ∃ g', fileLoop env parent files g p s = (none, g', p, s) ∧
        g'.db = g.db ∧ g'.dest = g.dest := by
  intro files
  induction files with
  | nil => intro g p s _; exact ⟨g, rfl, rfl, rfl⟩
  | cons f0 rest ih =>
    intro g p s hset
    have h0 := hset f0 (List.mem_cons_self f0 rest)
    have hrest : ∀ f ∈ rest, settledB g.db (mkSource parent f) = true :=
      fun f hf => hset f (List.mem_cons_of_mem f0 hf)
    have hI : ¬env.interruptAt g.iter = true := by simp [hni g.iter]
    unfold settledB at h0
    split at h0
    next b hu =>
      have hb := is_unwanted_file_ok_bool _ b hu
      subst hb
      obtain ⟨g', hg', hdb, hdest⟩ := ih { g with iter := g.iter + 1 } p s hrest
      refine ⟨g', ?_, hdb, hdest⟩
      rw [fileLoop_step_unwanted env parent f0 rest g p s hu, if_neg hI, hg']
    next hu =>
      obtain ⟨g', hg', hdb, hdest⟩ := ih { g with iter := g.iter + 1 } p s hrest
      refine ⟨g', ?_, hdb, hdest⟩
      rw [fileLoop_step_processed env parent f0 rest g p s hu h0, if_neg hI, hg']
    next => exact absurd h0 (by simp)

/-! ## Classification helpers for mixed runs -/

theorem unwantedNoneB_ok (src : String) (h : unwantedNoneB src = true) :
    is_unwanted_file src = .ok none := by
  unfold unwantedNoneB at h
  split at h
  next heq => exact heq
  next => exact absurd h (by simp)

theorem tsOkB_ok (f : File) (h : tsOkB f = true) : ∃ t, get_timestamp f = .ok t := by
  unfold tsOkB at h
  split at h
  next t heq => exact ⟨t, heq⟩
  next => exact absurd h (by simp)

theorem cleanB_parts {db : Db} {parent : String} {f : File} (h : cleanB db parent f = true) :
    is_unwanted_file (mkSource parent f) = .ok none ∧
    is_processed_source (mkSource parent f) db = false ∧
    ∃ t, get_timestamp f = .ok t := by
  unfold cleanB at h
  simp only [Bool.and_eq_true, Bool.not_eq_true'] at h
  exact ⟨unwantedNoneB_ok _ h.1.1, h.1.2, tsOkB_ok f h.2⟩

theorem cleanB_intro {db : Db} {parent : String} {f : File}
    (hu : is_unwanted_file (mkSource parent f) = .ok none)
    (hp : is_processed_source (mkSource parent f) db = false)
    (ht : ∃ t, get_timestamp f = .ok t) : cleanB db parent f = true := by
  unfold cleanB
  simp only [Bool.and_eq_true, Bool.not_eq_true']
  refine ⟨⟨?_, hp⟩, ?_⟩
  · unfold unwantedNoneB; rw [hu]
  · unfold tsOkB; obtain ⟨t, ht⟩ := ht; rw [ht]

theorem cleanB_mono_false {d1 d2 : Db} {parent : String} {f : File}
    (hext : dbExtends d1 d2) (h : cleanB d1 parent f = false) : cleanB d2 parent f = false := by
  cases hc : cleanB d2 parent f with
  | false => rfl
  | true =>
    obtain ⟨hu, hp2, ht⟩ := cleanB_parts hc
    have hp1 : is_processed_source (mkSource parent f) d1 = false := by
      cases hp : is_processed_source (mkSource parent f) d1 with
      | false => rfl
      | true => rw [is_processed_source_mono _ hext hp] at hp2; exact absurd hp2 (by simp)
    rw [cleanB_intro hu hp1 ht] at h
    exact absurd h (by simp)

theorem settledB_not_clean {db : Db} {parent : String} {f : File}
    (h : settledB db (mkSource parent f) = true) : cleanB db parent f = false := by
  unfold settledB at h
  split at h
  next b hu =>
    unfold cleanB unwantedNoneB
    rw [hu]
    simp
  next hu =>
    unfold cleanB
    rw [h]
    simp
  next => exact absurd h (by simp)

theorem sizesOf_nil : sizesOf [] = 0 := rfl

theorem sizesOf_cons (f : File) (l : List File) :
    sizesOf (f :: l) = f.content.length + sizesOf l := by
  unfold sizesOf
  simp

/-- Inserting a fresh row only makes its own source processed. -/
theorem is_processed_source_insert_false {db : Db} {r : SyncRow} {src : String}
    (habs : is_processed_source r.source db = false)
    (hold : is_processed_source src db = false) (hne : src ≠ r.source) :
    is_processed_source src (insertOrIgnoreSync db r) = false := by
  cases hpp : is_processed_source src (insertOrIgnoreSync db r) with
  | false => rfl
  | true =>
    exfalso
    have hm := (is_processed_source_iff_mem src _).mp hpp
    rw [sourcesOf_insert_absent db r habs] at hm
    rcases List.mem_append.mp hm with hm | hm
    · rw [(is_processed_source_iff_mem src db).mpr hm] at hold
      exact absurd hold (by simp)
    · exact hne (List.mem_singleton.mp hm)

/-- An uninterrupted, copy-error-free pass over a list of files each of which
is either settled or clean: exactly the clean files are processed, their
sizes are summed, and their source paths are appended to the ledger in
order. -/
theorem fileLoop_mixed (env : Env) (parent : String)
    (hni : ∀ i, env.interruptAt i = false)
    (hce : ∀ src, env.copyErrno src = none) :
    ∀ (files : List File) (g : Glob) (p s : Nat),
      (∀ f ∈ files, settledB g.db (mkSource parent f) = true ∨ cleanB g.db parent f = true) →
      ((files.filter (cleanB g.db parent)).map (mkSource parent)).Nodup →
      ∃ g', fileLoop env parent files g p s =
          (none, g', p + (files.filter (cleanB g.db parent)).length,
            s + sizesOf (files.filter (cleanB g.db parent))) ∧
        sourcesOf g'.db =
          sourcesOf g.db ++ (files.filter (cleanB g.db parent)).map (mkSource parent) := by
  intro files
  induction files with
  | nil =>
    intro g p s _ _
    exact ⟨g, by simp [fileLoop, sizesOf], by simp⟩
  | cons f0 rest ih =>
    intro g p s hcls hnd
    have hI : ¬env.interruptAt g.iter = true := by simp [hni g.iter]
    rcases hcls f0 (List.mem_cons_self f0 rest) with h0 | h0
    · -- settled head: the loop skips it, and it is not counted by the filter
      have hnc : cleanB g.db parent f0 = false := settledB_not_clean h0
      have hfil : (f0 :: rest).filter (cleanB g.db parent) = rest.filter (cleanB g.db parent) := by
        simp [List.filter_cons, hnc]
      rw [hfil] at hnd ⊢
      have hcls' : ∀ f ∈ rest,
          settledB g.db (mkSource parent f) = true ∨ cleanB g.db parent f = true :=
        fun f hf => hcls f (List.mem_cons_of_mem f0 hf)
      obtain ⟨g', hg', hsrc⟩ := ih { g with iter := g.iter + 1 } p s hcls' hnd
      unfold settledB at h0
      split at h0
      next b hu =>
        have hb := is_unwanted_file_ok_bool _ b hu
        subst hb
        exact ⟨g', by
          rw [fileLoop_step_unwanted env parent f0 rest g p s hu, if_neg hI, hg'], hsrc⟩
      next hu =>
        exact ⟨g', by
          rw [fileLoop_step_processed env parent f0 rest g p s hu h0, if_neg hI, hg'], hsrc⟩
      next => exact absurd h0 (by simp)
    · -- clean head: the loop processes it
      obtain ⟨hu, hp, t, ht⟩ := cleanB_parts h0
      have hstep := fileLoop_step_process env parent f0 rest g p s t (hni g.iter) hu hp ht
        (hce (mkSource parent f0))
      have hsrc2 : sourcesOf (insertOrIgnoreSync g.db
          ⟨mkSource parent f0, destRelPath t f0.name, t, g.now⟩) =
          sourcesOf g.db ++ [mkSource parent f0] :=
        sourcesOf_insert_absent g.db _ hp
      have hext2 : dbExtends g.db (insertOrIgnoreSync g.db
          ⟨mkSource parent f0, destRelPath t f0.name, t, g.now⟩) := dbExtends_insert _ _
      have hfil : (f0 :: rest).filter (cleanB g.db parent) =
          f0 :: rest.filter (cleanB g.db parent) := by
        simp [List.filter_cons, h0]
      rw [hfil] at hnd ⊢
      rw [List.map_cons] at hnd
      have hnotin : mkSource parent f0 ∉ (rest.filter (cleanB g.db parent)).map (mkSource parent) :=
        (List.nodup_cons.mp hnd).1
      have hndtail : ((rest.filter (cleanB g.db parent)).map (mkSource parent)).Nodup :=
        (List.nodup_cons.mp hnd).2
      have hstab : ∀ f ∈ rest,
          cleanB (insertOrIgnoreSync g.db
            ⟨mkSource parent f0, destRelPath t f0.name, t, g.now⟩) parent f =
          cleanB g.db parent f := by
        intro f hf
        cases hcf : cleanB g.db parent f with
        | false => exact cleanB_mono_false hext2 hcf
        | true =>
          obtain ⟨hu', hp', ht'⟩ := cleanB_parts hcf
          have hne : mkSource parent f ≠ mkSource parent f0 := by
            intro hEq
            apply hnotin
            rw [← hEq]
            exact List.mem_map_of_mem (mkSource parent) (List.mem_filter.mpr ⟨hf, hcf⟩)
          exact cleanB_intro hu' (is_processed_source_insert_false hp hp' hne) ht'
      have hcls2 : ∀ f ∈ rest,
          settledB (insertOrIgnoreSync g.db
            ⟨mkSource parent f0, destRelPath t f0.name, t, g.now⟩) (mkSource parent f) = true ∨
          cleanB (insertOrIgnoreSync g.db
            ⟨mkSource parent f0, destRelPath t f0.name, t, g.now⟩) parent f = true := by
        intro f hf
        rcases hcls f (List.mem_cons_of_mem f0 hf) with h | h
        · exact Or.inl (settledB_mono _ hext2 h)
        · exact Or.inr (by rw [hstab f hf]; exact h)
      have hnd2 : ((rest.filter (cleanB (insertOrIgnoreSync g.db
          ⟨mkSource parent f0, destRelPath t f0.name, t, g.now⟩) parent)).map
            (mkSource parent)).Nodup := by
        rw [List.filter_congr hstab]
        exact hndtail
      obtain ⟨g', hg', hsrcg⟩ := ih
        { g with
          iter := g.iter + 1
          dest := destWrite g.dest (destRelPath t f0.name) f0.content
          db := insertOrIgnoreSync g.db ⟨mkSource parent f0, destRelPath t f0.name, t, g.now⟩
          now := g.now + 1 } (p + 1) (s + f0.content.length) hcls2 hnd2
      dsimp only at hg' hsrcg
      rw [List.filter_congr hstab] at hg' hsrcg
      refine ⟨g', ?_, ?_⟩
      · rw [hstep, hg']
        simp only [Prod.mk.injEq, List.length_cons, sizesOf_cons]
        exact ⟨trivial, trivial, by omega, by omega⟩
      · rw [hsrcg, hsrc2, List.map_cons]
        simp [List.append_assoc]

/-- A run over clean files with an operator interrupt scheduled at global
file iteration `N`: the loop processes exactly the files before the
interrupt point, records each of them, and escapes with
`KeyboardInterrupt`. -/
theorem fileLoop_interrupted (env : Env) (parent : String) (N : Nat)
    (hN : ∀ i, env.interruptAt i = decide (i = N))
    (hce : ∀ src, env.copyErrno src = none) :
    ∀ (files : List File) (g : Glob) (p s : Nat),
      (∀ f ∈ files, cleanB g.db parent f = true) →
      (files.map (mkSource parent)).Nodup →
      g.iter ≤ N → N - g.iter < files.length →
      ∃ g', fileLoop env parent files g p s =
          (some .keyboardInterrupt, g', p + (N - g.iter),
            s + sizesOf (files.take (N - g.iter))) ∧
        sourcesOf g'.db = sourcesOf g.db ++ (files.take (N - g.iter)).map (mkSource parent) := by
  intro files
  induction files with
  | nil => intro g p s _ _ _ hlen; exact absurd hlen (by simp)
  | cons f0 rest ih =>
    intro g p s hclean hnd hle hlen
    by_cases hit : g.iter = N
    · -- the interrupt fires before this file
      have hzero : N - g.iter = 0 := by omega
      refine ⟨g, ?_, ?_⟩
      · rw [fileLoop_step_interrupt env parent f0 rest g p s (by rw [hN, hit]; simp), hzero]
        simp [sizesOf]
      · rw [hzero]
        simp
    · -- this file is still processed before the interrupt
      have hlt : g.iter < N := by omega
      have hni : env.interruptAt g.iter = false := by
        rw [hN]
        simp
        omega
      have h0 : cleanB g.db parent f0 = true := hclean f0 (List.mem_cons_self f0 rest)
      obtain ⟨hu, hp, t, ht⟩ := cleanB_parts h0
      have hstep := fileLoop_step_process env parent f0 rest g p s t hni hu hp ht
        (hce (mkSource parent f0))
      have hsrc2 : sourcesOf (insertOrIgnoreSync g.db
          ⟨mkSource parent f0, destRelPath t f0.name, t, g.now⟩) =
          sourcesOf g.db ++ [mkSource parent f0] :=
        sourcesOf_insert_absent g.db _ hp
      have hext2 : dbExtends g.db (insertOrIgnoreSync g.db
          ⟨mkSource parent f0, destRelPath t f0.name, t, g.now⟩) := dbExtends_insert _ _
      rw [List.map_cons] at hnd
      have hnotin : mkSource parent f0 ∉ rest.map (mkSource parent) :=
        (List.nodup_cons.mp hnd).1
      have hndtail : (rest.map (mkSource parent)).Nodup := (List.nodup_cons.mp hnd).2
      have hclean2 : ∀ f ∈ rest,
          cleanB (insertOrIgnoreSync g.db
            ⟨mkSource parent f0, destRelPath t f0.name, t, g.now⟩) parent f = true := by
        intro f hf
        obtain ⟨hu', hp', ht'⟩ := cleanB_parts (hclean f (List.mem_cons_of_mem f0 hf))
        have hne : mkSource parent f ≠ mkSource parent f0 := by
          intro hEq
          apply hnotin
          rw [← hEq]
          exact List.mem_map_of_mem (mkSource parent) hf
        exact cleanB_intro hu' (is_processed_source_insert_false hp hp' hne) ht'
      have hlen' : N - g.iter < rest.length + 1 := by simpa using hlen
      obtain ⟨g', hg', hsrcg⟩ := ih
        { g with
          iter := g.iter + 1
          dest := destWrite g.dest (destRelPath t f0.name) f0.content
          db := insertOrIgnoreSync g.db ⟨mkSource parent f0, destRelPath t f0.name, t, g.now⟩
          now := g.now + 1 } (p + 1) (s + f0.content.length) hclean2 hndtail (by dsimp only; omega)
        (by dsimp only; omega)
      dsimp only at hg' hsrcg
      have hdelta : N - g.iter = (N - (g.iter + 1)) + 1 := by omega
      refine ⟨g', ?_, ?_⟩
      · rw [hstep, hg', hdelta, List.take_succ_cons]
        simp only [Prod.mk.injEq, sizesOf_cons]
        exact ⟨trivial, trivial, by omega, by omega⟩
      · rw [hsrcg, hsrc2, hdelta, List.take_succ_cons, List.map_cons]
        simp [List.append_assoc]

/-! ## Reduction lemmas for the engine -/

theorem resultGlob_handleRaised (r : Raised) (g : Glob) (p s : Nat) :
    resultGlob (handleRaised r g p s) = g := by
  cases r
  case osErr eno =>
    show resultGlob
      (if eno = 5 then .ok (2, p, s, g) else .error (.osErr eno, g, p, s)) = g
    split <;> rfl
  all_goals rfl

/-- The frame handlers never produce exit code 0: an escaped exception ends
the frame with 1, 2 or a re-raise. -/
theorem handleRaised_ne_ok_zero (r : Raised) (g : Glob) (p s p' s' : Nat) (g' : Glob) :
    handleRaised r g p s ≠ .ok (0, p', s', g') := by
  intro h
  cases r with
  | keyboardInterrupt => simp [handleRaised] at h
  | osErr eno =>
    have h2 : (if eno = 5 then Except.ok (2, p, s, g)
        else Except.error (Raised.osErr eno, g, p, s)) = Except.ok (0, p', s', g') := h
    split at h2 <;> simp at h2
  | abort => simp [handleRaised] at h
  | pyErr e => simp [handleRaised] at h
  | fuelOut => simp [handleRaised] at h

theorem engineF_dirs_nil (env : Env) (fuel : Nat) (g : Glob) (p s : Nat) :
    engineF env (fuel + 1) (.dirs []) g p s = .ok (0, p, s, g) := rfl

theorem engineF_dirs_cons_error (env : Env) (fuel : Nat) (t : DirTree) (rest : List DirTree)
    (g : Glob) (p s : Nat) (r : Raised) (g' : Glob) (p' s' : Nat)
    (h : engineF env fuel (.tree t) g p s = .error (r, g', p', s')) :
    engineF env (fuel + 1) (.dirs (t :: rest)) g p s = .error (r, g', p, s) := by
  simp only [engineF, h]

theorem engineF_dirs_cons_ok (env : Env) (fuel : Nat) (t : DirTree) (rest : List DirTree)
    (g : Glob) (p s : Nat) (ec p' s' : Nat) (g' : Glob)
    (h : engineF env fuel (.tree t) g p s = .ok (ec, p', s', g')) :
    engineF env (fuel + 1) (.dirs (t :: rest)) g p s =
      if ec ≠ 0 then .ok (ec, p', s', g') else engineF env fuel (.dirs rest) g' p' s' := by
  simp only [engineF, h]

theorem engineF_tree_error (env : Env) (fuel : Nat) (t : DirTree)
    (g : Glob) (p s : Nat) (r : Raised) (g' : Glob) (p' s' : Nat)
    (h : engineF env fuel (.dirs (sortDirs t.subdirs)) g p s = .error (r, g', p', s')) :
    engineF env (fuel + 1) (.tree t) g p s =
      if r = .fuelOut then .error (.fuelOut, g', p', s') else handleRaised r g' p' s' := by
  cases r <;> simp [engineF, h]

theorem engineF_tree_ok (env : Env) (fuel : Nat) (t : DirTree)
    (g : Glob) (p s : Nat) (ec p' s' : Nat) (g' : Glob)
    (h : engineF env fuel (.dirs (sortDirs t.subdirs)) g p s = .ok (ec, p', s', g')) :
    engineF env (fuel + 1) (.tree t) g p s =
      if ec ≠ 0 then .ok (ec, p', s', g')
      else
        match fileLoop env t.name t.files g' p' s' with
        | (none, g2, p2, s2) => .ok (0, p2, s2, g2)
        | (some r, g2, p2, s2) => handleRaised r g2 p2 s2 := by
  simp only [engineF, h]

/-! ## Engine invariants -/

/-- The engine only ever appends `sync` rows, over any run. -/
theorem engineF_extends (env : Env) :
    ∀ (fuel : Nat) (task : Task) (g : Glob) (p s : Nat),
      dbExtends g.db (resultGlob (engineF env fuel task g p s)).db := by
  intro fuel
  induction fuel with
  | zero => intro task g p s; exact dbExtends_refl _
  | succ fuel ih =>
    intro task g p s
    cases task with
    | dirs ts =>
      cases ts with
      | nil => exact dbExtends_refl _
      | cons t rest =>
        have iht := ih (.tree t) g p s
        cases hchild : engineF env fuel (.tree t) g p s with
        | error er =>
          obtain ⟨r, g', p', s'⟩ := er
          rw [hchild] at iht
          rw [engineF_dirs_cons_error env fuel t rest g p s r g' p' s' hchild]
          exact iht
        | ok res =>
          obtain ⟨ec, p', s', g'⟩ := res
          rw [hchild] at iht
          rw [engineF_dirs_cons_ok env fuel t rest g p s ec p' s' g' hchild]
          by_cases hec : ec ≠ 0
          · rw [if_pos hec]
            exact iht
          · rw [if_neg hec]
            exact dbExtends_trans iht (ih (.dirs rest) g' p' s')
    | tree t =>
      have ihd := ih (.dirs (sortDirs t.subdirs)) g p s
      cases hchild : engineF env fuel (.dirs (sortDirs t.subdirs)) g p s with
      | error er =>
        obtain ⟨r, g', p', s'⟩ := er
        rw [hchild] at ihd
        rw [engineF_tree_error env fuel t g p s r g' p' s' hchild]
        by_cases hr : r = .fuelOut
        · rw [if_pos hr]
          exact ihd
        · rw [if_neg hr, resultGlob_handleRaised]
          exact ihd
      | ok res =>
        obtain ⟨ec, p', s', g'⟩ := res
        rw [hchild] at ihd
        rw [engineF_tree_ok env fuel t g p s ec p' s' g' hchild]
        by_cases hec : ec ≠ 0
        · rw [if_pos hec]
          exact ihd
        · rw [if_neg hec]
          have hfl := fileLoop_extends env t.name t.files g' p' s'
          rcases hflr : fileLoop env t.name t.files g' p' s' with ⟨ro, g2, p2, s2⟩
          rw [hflr] at hfl
          cases ro with
          | none => exact dbExtends_trans ihd hfl
          | some r =>
            rw [resultGlob_handleRaised]
            exact dbExtends_trans ihd hfl

/-- Fuel-indexed settledness of a whole task for a database: every file
reachable by the traversal is either excluded by the filter or recorded. -/
def allSettledF (db : Db) : Nat → Task → Bool
  | 0, _ => false
  | _ + 1, .dirs [] => true
  | fuel + 1, .dirs (t :: rest) =>
    allSettledF db fuel (.tree t) && allSettledF db fuel (.dirs rest)
  | fuel + 1, .tree t =>
    allSettledF db fuel (.dirs (sortDirs t.subdirs)) &&
      t.files.all (fun f => settledB db (mkSource t.name f))

theorem allSettledF_mono {d1 d2 : Db} (hext : dbExtends d1 d2) :
    ∀ (fuel : Nat) (task : Task),
      allSettledF d1 fuel task = true → allSettledF d2 fuel task = true := by
  intro fuel
  induction fuel with
  | zero => intro task h; exact absurd h (by simp [allSettledF])
  | succ fuel ih =>
    intro task h
    cases task with
    | dirs ts =>
      cases ts with
      | nil => rfl
      | cons t rest =>
        simp only [allSettledF, Bool.and_eq_true] at h ⊢
        exact ⟨ih _ h.1, ih _ h.2⟩
    | tree t =>
      simp only [allSettledF, Bool.and_eq_true, List.all_eq_true] at h ⊢
      exact ⟨ih _ h.1, fun f hf => settledB_mono _ hext (h.2 f hf)⟩

/-- Over a fully settled task, an uninterrupted run is a no-op that exits 0:
no records, no copies, no counter change. -/
theorem engine_settled (env : Env) (hni : ∀ i, env.interruptAt i = false) :
    ∀ (fuel : Nat) (task : Task) (g : Glob) (p s : Nat),
      allSettledF g.db fuel task = true →
      ∃ g', engineF env fuel task g p s = .ok (0, p, s, g') ∧
        g'.db = g.db ∧ g'.dest = g.dest := by
  intro fuel
  induction fuel with
  | zero => intro task g p s h; exact absurd h (by simp [allSettledF])
  | succ fuel ih =>
    intro task g p s h
    cases task with
    | dirs ts =>
      cases ts with
      | nil => exact ⟨g, rfl, rfl, rfl⟩
      | cons t rest =>
        simp only [allSettledF, Bool.and_eq_true] at h
        obtain ⟨g1, h1, hdb1, hdest1⟩ := ih (.tree t) g p s h.1
        have h2' : allSettledF g1.db fuel (.dirs rest) = true := by rw [hdb1]; exact h.2
        obtain ⟨g2, h2, hdb2, hdest2⟩ := ih (.dirs rest) g1 p s h2'
        refine ⟨g2, ?_, by rw [hdb2, hdb1], by rw [hdest2, hdest1]⟩
        rw [engineF_dirs_cons_ok env fuel t rest g p s 0 p s g1 h1,
          if_neg (by simp : ¬(0 : Nat) ≠ 0)]
        exact h2
    | tree t =>
      simp only [allSettledF, Bool.and_eq_true, List.all_eq_true] at h
      obtain ⟨g1, h1, hdb1, hdest1⟩ := ih (.dirs (sortDirs t.subdirs)) g p s h.1
      have hset1 : ∀ f ∈ t.files, settledB g1.db (mkSource t.name f) = true := by
        intro f hf
        rw [hdb1]
        exact h.2 f hf
      obtain ⟨g2, h2, hdb2, hdest2⟩ := fileLoop_settled env t.name hni t.files g1 p s hset1
      refine ⟨g2, ?_, by rw [hdb2, hdb1], by rw [hdest2, hdest1]⟩
      rw [engineF_tree_ok env fuel t g p s 0 p s g1 h1,
        if_neg (by simp : ¬(0 : Nat) ≠ 0), h2]

/-- After a run that exits 0, the whole task is settled in the resulting
database: every qualifying file is recorded or excluded. -/
theorem engine_post (env : Env) :
    ∀ (fuel : Nat) (task : Task) (g g' : Glob) (p s p' s' : Nat),
      engineF env fuel task g p s = .ok (0, p', s', g') →
      allSettledF g'.db fuel task = true := by
  intro fuel
  induction fuel with
  | zero => intro task g g' p s p' s' h; exact absurd h (by simp [engineF])
  | succ fuel ih =>
    intro task g g' p s p' s' h
    cases task with
    | dirs ts =>
      cases ts with
      | nil => rfl
      | cons t rest =>
        cases hchild : engineF env fuel (.tree t) g p s with
        | error er =>
          obtain ⟨r, g1, p1, s1⟩ := er
          rw [engineF_dirs_cons_error env fuel t rest g p s r g1 p1 s1 hchild] at h
          exact absurd h (by simp)
        | ok res =>
          obtain ⟨ec, p1, s1, g1⟩ := res
          rw [engineF_dirs_cons_ok env fuel t rest g p s ec p1 s1 g1 hchild] at h
          by_cases hec : ec ≠ 0
          · rw [if_pos hec] at h
            simp only [Except.ok.injEq, Prod.mk.injEq] at h
            exact absurd h.1 hec
          · have hec0 := not_ne_iff.mp hec
            subst hec0
            rw [if_neg hec] at h
            have ht := ih (.tree t) g g1 p s p1 s1 hchild
            have hrest := ih (.dirs rest) g1 g' p1 s1 p' s' h
            have hext : dbExtends g1.db g'.db := by
              have h3 := engineF_extends env fuel (.dirs rest) g1 p1 s1
              rw [h] at h3
              exact h3
            simp only [allSettledF, Bool.and_eq_true]
            exact ⟨allSettledF_mono hext fuel (.tree t) ht, hrest⟩
    | tree t =>
      cases hchild : engineF env fuel (.dirs (sortDirs t.subdirs)) g p s with
      | error er =>
        obtain ⟨r, g1, p1, s1⟩ := er
        rw [engineF_tree_error env fuel t g p s r g1 p1 s1 hchild] at h
        by_cases hr : r = .fuelOut
        · rw [if_pos hr] at h
          exact absurd h (by simp)
        · rw [if_neg hr] at h
          exact absurd h (handleRaised_ne_ok_zero r g1 p1 s1 p' s' g')
      | ok res =>
        obtain ⟨ec, p1, s1, g1⟩ := res
        rw [engineF_tree_ok env fuel t g p s ec p1 s1 g1 hchild] at h
        by_cases hec : ec ≠ 0
        · rw [if_pos hec] at h
          simp only [Except.ok.injEq, Prod.mk.injEq] at h
          exact absurd h.1 hec
        · have hec0 := not_ne_iff.mp hec
          subst hec0
          rw [if_neg hec] at h
          rcases hflr : fileLoop env t.name t.files g1 p1 s1 with ⟨ro, g2, p2, s2⟩
          rw [hflr] at h
          cases ro with
          | none =>
            have h2 : Except.ok (0, p2, s2, g2) = Except.ok (0, p', s', g') := h
            simp only [Except.ok.injEq, Prod.mk.injEq] at h2
            obtain ⟨heq1, heq2, heq3, hg2⟩ := h2
            have hd := ih (.dirs (sortDirs t.subdirs)) g g1 p s p1 s1 hchild
            have hext : dbExtends g1.db g2.db := by
              have h3 := fileLoop_extends env t.name t.files g1 p1 s1
              rw [hflr] at h3
              exact h3
            have hfiles := fileLoop_post env t.name t.files g1 g2 p1 s1 p2 s2 hflr
            simp only [allSettledF, Bool.and_eq_true, List.all_eq_true]
            subst hg2
            exact ⟨allSettledF_mono hext fuel _ hd, hfiles⟩
          | some r =>
            have h2 : handleRaised r g2 p2 s2 = Except.ok (0, p', s', g') := h
            exact absurd h2 (handleRaised_ne_ok_zero r g2 p2 s2 p' s' g')

/-! ## Uniqueness of the `source` primary key -/

/-- `INSERT OR IGNORE` preserves uniqueness of the `source` column. -/
theorem nodup_insertOrIgnoreSync {db : Db} (r : SyncRow) (h : (sourcesOf db).Nodup) :
    (sourcesOf (insertOrIgnoreSync db r)).Nodup := by
  cases hp : is_processed_source r.source db with
  | true => rw [insertOrIgnoreSync_present db r hp]; exact h
  | false =>
    rw [sourcesOf_insert_absent db r hp]
    have hmem : r.source ∉ sourcesOf db := by
      intro hm
      rw [(is_processed_source_iff_mem r.source db).mpr hm] at hp
      exact absurd hp (by simp)
    rw [List.nodup_append]
    exact ⟨h, List.nodup_singleton _, by simpa using hmem⟩

/-- The file loop preserves uniqueness of the `source` column. -/
theorem fileLoop_nodup (env : Env) (parent : String) :
    ∀ (files : List File) (g : Glob) (p s : Nat),
      (sourcesOf g.db).Nodup →
      (sourcesOf (fileLoop env parent files g p s).2.1.db).Nodup := by
  intro files
  induction files with
  | nil => intro g p s h; exact h
  | cons f rest ih =>
    intro g p s h
    by_cases hI : env.interruptAt g.iter = true
    · rw [fileLoop_step_interrupt env parent f rest g p s hI]
      exact h
    · have hni : env.interruptAt g.iter = false := by simpa using hI
      cases hu : is_unwanted_file (mkSource parent f) with
      | error e =>
        rw [fileLoop_step_filter_raises env parent f rest g p s e hni hu]
        exact h
      | ok o =>
        cases o with
        | some b =>
          have hb := is_unwanted_file_ok_bool _ b hu
          subst hb
          rw [fileLoop_step_unwanted env parent f rest g p s hu, if_neg hI]
          exact ih _ p s h
        | none =>
          cases hp : is_processed_source (mkSource parent f) g.db with
          | true =>
            rw [fileLoop_step_processed env parent f rest g p s hu hp, if_neg hI]
            exact ih _ p s h
          | false =>
            cases ht : get_timestamp f with
            | error e =>
              rw [fileLoop_step_ts_raises env parent f rest g p s e hni hu hp ht]
              exact h
            | ok t =>
              cases hc : env.copyErrno (mkSource parent f) with
              | some eno =>
                by_cases he : eno = 13 ∨ eno = 28
                · rw [fileLoop_step_copy_abort env parent f rest g p s t eno hni hu hp ht hc he]
                  exact h
                · rw [fileLoop_step_copy_oserror env parent f rest g p s t eno hni hu hp ht hc he]
                  exact h
              | none =>
                rw [fileLoop_step_process env parent f rest g p s t hni hu hp ht hc]
                exact ih _ (p + 1) _ (nodup_insertOrIgnoreSync _ h)

/-- Any engine run preserves uniqueness of the `source` column. -/
theorem engineF_nodup (env : Env) :
    ∀ (fuel : Nat) (task : Task) (g : Glob) (p s : Nat),
      (sourcesOf g.db).Nodup →
      (sourcesOf (resultGlob (engineF env fuel task g p s)).db).Nodup := by
  intro fuel
  induction fuel with
  | zero => intro task g p s h; exact h
  | succ fuel ih =>
    intro task g p s h
    cases task with
    | dirs ts =>
      cases ts with
      | nil => exact h
      | cons t rest =>
        have iht := ih (.tree t) g p s h
        cases hchild : engineF env fuel (.tree t) g p s with
        | error er =>
          obtain ⟨r, g', p', s'⟩ := er
          rw [hchild] at iht
          rw [engineF_dirs_cons_error env fuel t rest g p s r g' p' s' hchild]
          exact iht
        | ok res =>
          obtain ⟨ec, p', s', g'⟩ := res
          rw [hchild] at iht
          rw [engineF_dirs_cons_ok env fuel t rest g p s ec p' s' g' hchild]
          by_cases hec : ec ≠ 0
          · rw [if_pos hec]
            exact iht
          · rw [if_neg hec]
            exact ih (.dirs rest) g' p' s' iht
    | tree t =>
      have ihd := ih (.dirs (sortDirs t.subdirs)) g p s h
      cases hchild : engineF env fuel (.dirs (sortDirs t.subdirs)) g p s with
      | error er =>
        obtain ⟨r, g', p', s'⟩ := er
        rw [hchild] at ihd
        rw [engineF_tree_error env fuel t g p s r g' p' s' hchild]
        by_cases hr : r = .fuelOut
        · rw [if_pos hr]
          exact ihd
        · rw [if_neg hr, resultGlob_handleRaised]
          exact ihd
      | ok res =>
        obtain ⟨ec, p', s', g'⟩ := res
        rw [hchild] at ihd
        rw [engineF_tree_ok env fuel t g p s ec p' s' g' hchild]
        by_cases hec : ec ≠ 0
        · rw [if_pos hec]
          exact ihd
        · rw [if_neg hec]
          have hfl := fileLoop_nodup env t.name t.files g' p' s' ihd
          rcases hflr : fileLoop env t.name t.files g' p' s' with ⟨ro, g2, p2, s2⟩
          rw [hflr] at hfl
          cases ro with
          | none => exact hfl
          | some r =>
            rw [resultGlob_handleRaised]
            exact hfl

/-! ## Lemmas about the transfer micro-steps -/

theorem runSteps_cons (fs : TransferFs) (x : TransferStep) (l : List TransferStep) :
    runSteps fs (x :: l) = runSteps (applyStep fs x) l := rfl

theorem runSteps_append (fs : TransferFs) (a b : List TransferStep) :
    runSteps fs (a ++ b) = runSteps (runSteps fs a) b := by
  unfold runSteps
  exact List.foldl_append _ _ a b

/-- Writing to the temporary path never touches the final path. -/
theorem final_runSteps_writes (bs : List Nat) :
    ∀ fs : TransferFs, (runSteps fs (bs.map TransferStep.writeByte)).final = fs.final := by
  induction bs with
  | nil => intro fs; rfl
  | cons b rest ih =>
    intro fs
    rw [List.map_cons, runSteps_cons, ih]
    cases htmp : fs.temp <;> simp [applyStep, htmp]

/-- Writes accumulate on the temporary path. -/
theorem temp_runSteps_writes (bs : List Nat) :
    ∀ (fs : TransferFs) (c : List Nat), fs.temp = some c →
      runSteps fs (bs.map TransferStep.writeByte) = { fs with temp := some (c ++ bs) } := by
  induction bs with
  | nil =>
    intro fs c h
    simp only [List.map_nil, runSteps, List.foldl_nil, List.append_nil, ← h]
  | cons b rest ih =>
    intro fs c h
    rw [List.map_cons, runSteps_cons]
    have hstep : applyStep fs (.writeByte b) = { fs with temp := some (c ++ [b]) } := by
      simp [applyStep, h]
    rw [hstep, ih _ (c ++ [b]) rfl]
    simp

/-- A complete transfer ends with the full copy at the final path and the
temporary path renamed away. -/
theorem runSteps_transfer (src : List Nat) (fs0 : TransferFs) :
    runSteps fs0 (transferSteps src) = { final := some src, temp := none } := by
  unfold transferSteps
  rw [runSteps_append]
  rw [show runSteps fs0 (TransferStep.createTemp :: src.map TransferStep.writeByte) =
      runSteps { fs0 with temp := some [] } (src.map TransferStep.writeByte) from rfl]
  rw [temp_runSteps_writes src _ [] rfl]
  simp [runSteps, applyStep]

/-! ## Unfolding lemmas for the PNG chunk loop -/

theorem pngChunkLoop_eq (rest : List Nat) :
    pngChunkLoop rest =
      if rest.length < 4 then .ok none
      else if ((rest.drop 4).take 4).any (fun b => 128 ≤ b) then .error .unicodeDecodeError
      else if (rest.drop 4).take 4 = eXIfChunkType then
        match searchTs (((rest.drop 4).drop 4).take (fromBytesBE (rest.take 4))) with
        | some m => (parseTsBytes m).map some
        | none => pngChunkLoop ((((rest.drop 4).drop 4).drop (fromBytesBE (rest.take 4))).drop 4)
      else pngChunkLoop ((((rest.drop 4).drop 4).drop (fromBytesBE (rest.take 4))).drop 4) := by
  conv_lhs => rw [pngChunkLoop]
  rfl

/-- A truncated read of the next chunk length ends the loop with no match. -/
theorem pngChunkLoop_short (rest : List Nat) (h : rest.length < 4) :
    pngChunkLoop rest = .ok none := by
  rw [pngChunkLoop_eq rest, if_pos h]

/-- One full chunk at the head of the stream: an `eXIf` chunk is searched,
any other chunk is skipped, and the loop continues behind its CRC. -/
theorem pngChunkLoop_chunk (L T D C tail : List Nat)
    (hL : L.length = 4) (hT : T.length = 4) (hTa : ∀ b ∈ T, b < 128) (hC : C.length = 4)
    (hD : D.length = fromBytesBE L) :
    pngChunkLoop (L ++ T ++ D ++ C ++ tail) =
      if T = eXIfChunkType then
        match searchTs D with
        | some m => (parseTsBytes m).map some
        | none => pngChunkLoop tail
      else pngChunkLoop tail := by
  have h1 : (L ++ (T ++ (D ++ (C ++ tail)))).take 4 = L := by
    rw [← hL]
    exact List.take_left L _
  have h2 : (L ++ (T ++ (D ++ (C ++ tail)))).drop 4 = T ++ (D ++ (C ++ tail)) := by
    rw [← hL]
    exact List.drop_left L _
  have h3 : (T ++ (D ++ (C ++ tail))).take 4 = T := by
    rw [← hT]
    exact List.take_left T _
  have h4 : (T ++ (D ++ (C ++ tail))).drop 4 = D ++ (C ++ tail) := by
    rw [← hT]
    exact List.drop_left T _
  have h5 : (D ++ (C ++ tail)).take (fromBytesBE L) = D := by
    rw [← hD]
    exact List.take_left D _
  have h6 : (D ++ (C ++ tail)).drop (fromBytesBE L) = C ++ tail := by
    rw [← hD]
    exact List.drop_left D _
  have h7 : (C ++ tail).drop 4 = tail := by
    rw [← hC]
    exact List.drop_left C _
  have hlen : ¬(L ++ (T ++ (D ++ (C ++ tail)))).length < 4 := by
    simp [hL]
  have hany : T.any (fun b => 128 ≤ b) = false := by
    rw [List.any_eq_false]
    intro b hb
    have := hTa b hb
    simp only [decide_eq_true_eq]
    omega
  rw [pngChunkLoop_eq (L ++ T ++ D ++ C ++ tail)]
  simp only [List.append_assoc] at *
  rw [if_neg hlen, h2, h3, hany, h1, h4, h5, h6, h7]
  simp

/-- `re.search` returns the leftmost match of the datetime pattern. -/
theorem searchTs_leftmost (D : List Nat) :
    ∀ i : Nat, matches19 (D.drop i) = true → (∀ j, j < i → matches19 (D.drop j) = false) →
      searchTs D = some ((D.drop i).take 19) := by
  induction D with
  | nil =>
    intro i hm _
    rw [List.drop_nil] at hm
    exact absurd hm (by simp [matches19])
  | cons b rest ih =>
    intro i hm hbefore
    cases i with
    | zero =>
      rw [List.drop_zero] at hm ⊢
      unfold searchTs
      rw [hm]
      simp
    | succ i =>
      have h0 : matches19 (b :: rest) = false := by
        have := hbefore 0 (Nat.succ_pos i)
        rwa [List.drop_zero] at this
      rw [List.drop_succ_cons] at hm ⊢
      unfold searchTs
      rw [h0]
      exact ih i hm (fun j hj => by
        have := hbefore (j + 1) (Nat.succ_lt_succ hj)
        rwa [List.drop_succ_cons] at this)

/-! ## Lemmas about Python `str.split(".")` -/

theorem splitOnDot_ne_nil : ∀ l : List Char, splitOnDot l ≠ [] := by
  intro l
  cases l with
  | nil => simp [splitOnDot]
  | cons c rest =>
    unfold splitOnDot
    cases h : splitOnDot rest with
    | nil => simp
    | cons s ss => by_cases hc : c = '.' <;> simp [hc]

theorem splitOnDot_no_dot : ∀ l : List Char, '.' ∉ l → splitOnDot l = [l] := by
  intro l
  induction l with
  | nil => intro _; rfl
  | cons c rest ih =>
    intro h
    have hc : c ≠ '.' := fun he => h (he ▸ List.mem_cons_self c rest)
    have hr : '.' ∉ rest := fun hm => h (List.mem_cons_of_mem c hm)
    unfold splitOnDot
    rw [ih hr]
    simp [hc]

theorem splitOnDot_with_dot : ∀ l : List Char, '.' ∈ l → 2 ≤ (splitOnDot l).length := by
  intro l
  induction l with
  | nil => intro h; exact absurd h (List.not_mem_nil _)
  | cons c rest ih =>
    intro h
    unfold splitOnDot
    cases hs : splitOnDot rest with
    | nil => exact absurd hs (splitOnDot_ne_nil rest)
    | cons s ss =>
      by_cases hc : c = '.'
      · simp [hc]
      · have hr : '.' ∈ rest := by
          rcases List.mem_cons.mp h with h1 | h1
          · exact absurd h1.symm hc
          · exact h1
        have h2 := ih hr
        rw [hs] at h2
        simp only [if_neg hc, List.length_cons] at h2 ⊢
        omega

/-! ## Schema helper lemmas -/

theorem createTableIfNotExists_extends (ts : List TableSchema) (t : TableSchema) :
    ∃ tail, createTableIfNotExists ts t = ts ++ tail := by
  unfold createTableIfNotExists
  split
  · exact ⟨[], by simp⟩
  · exact ⟨[t], rfl⟩

theorem hasTable_createTableIfNotExists_self (ts : List TableSchema) (t : TableSchema) :
    hasTable (createTableIfNotExists ts t) t.name = true := by
  unfold createTableIfNotExists hasTable
  split
  next hc => exact hc
  next => simp

theorem hasTable_createTableIfNotExists_mono (ts : List TableSchema) (t : TableSchema)
    (n : String) (h : hasTable ts n = true) :
    hasTable (createTableIfNotExists ts t) n = true := by
  unfold createTableIfNotExists hasTable at *
  split
  · exact h
  · simp only [List.any_append, h]
    rfl

/-! ## Concrete scenarios

The files in these scenarios use the `jpg` and `txt` extensions (whose
timestamp resolution goes through the modeled library observations or the
filesystem fallback), so every run below evaluates by kernel reduction. -/

def mtimeA : DateTime := ⟨2024, 1, 2, 3, 4, 5⟩

def emptyGlob : Glob := ⟨⟨[]⟩, [], 0, 0⟩

/-- Two byte-identical files named `img1.jpg` in two different source
subdirectories. -/
def c1File : File := ⟨"img1.jpg", [7, 7, 7], mtimeA, false, none, false, none⟩

def c1Tree : DirTree :=
  .node "DCIM" [.node "100APPLE" [] [c1File], .node "101APPLE" [] [c1File]] []

def c1Run : Except (Raised × Glob × Nat × Nat) (Nat × Nat × Nat × Glob) :=
  engineF noInterruptEnv 9 (.tree c1Tree) emptyGlob 0 0

/-- A PNG-named file whose first bytes are not the PNG signature. -/
def c2BadPng : File := ⟨"broken.png", [0, 1, 2], mtimeA, false, none, false, none⟩

/-- A file with an unknown extension: the resolver uses the filesystem time. -/
def c2PlainFile : File := ⟨"x.dat", [5], ⟨2023, 7, 15, 10, 0, 0⟩, false, none, false, none⟩

/-- A plain text file: its content bears no image or video signature. -/
def c3TxtFile : File := ⟨"readme.txt", [104, 105], mtimeA, false, none, false, none⟩

def c3Run : Except (Raised × Glob × Nat × Nat) (Nat × Nat × Nat × Glob) :=
  engineF noInterruptEnv 5 (.tree (.node "F" [] [c3TxtFile])) emptyGlob 0 0

/-- An Apple sidecar file, excluded by extension. -/
def c3AaeFile : File := ⟨"IMG_001.AAE", [1], mtimeA, false, none, false, none⟩

/-- Files for the interrupted run of C6. -/
def c6FileA : File := ⟨"a.jpg", [1], mtimeA, false, none, false, none⟩

def c6FileB : File := ⟨"b.jpg", [2, 2], mtimeA, false, none, false, none⟩

/-- An environment whose operator interrupts at global file iteration 1. -/
def c6Env1 : Env := ⟨fun i => decide (i = 1), fun _ => none⟩

def c8File : File := ⟨"pic.jpg", [9, 9], mtimeA, false, none, false, none⟩

def c8Tree : DirTree := .node "DCIM" [.node "102APPLE" [] [c8File]] []

def c8Run1 : Except (Raised × Glob × Nat × Nat) (Nat × Nat × Nat × Glob) :=
  engineF noInterruptEnv 9 (.tree c8Tree) emptyGlob 0 0

/-- The destination-scoped state a second run starts from. -/
def c8MidGlob : Glob := ⟨(resultGlob c8Run1).db, (resultGlob c8Run1).dest, 0, 0⟩

/-- Two byte-identical files named `dup.jpg` in two source subdirectories. -/
def c9File : File := ⟨"dup.jpg", [4, 4], mtimeA, false, none, false, none⟩

def c9Tree : DirTree :=
  .node "DCIM" [.node "300APPLE" [] [c9File], .node "301APPLE" [] [c9File]] []

def c9Run : Except (Raised × Glob × Nat × Nat) (Nat × Nat × Nat × Glob) :=
  engineF noInterruptEnv 9 (.tree c9Tree) emptyGlob 0 0

/-- A file whose two-component source name contains no dot. -/
def c10File : File := ⟨"noext", [9], mtimeA, false, none, false, none⟩

/-! ## Claims -/

/-- C1 counterexample: the claim says two byte-identical qualifying files
(different subdirectories, same bytes) yield exactly one SyncRecord.  On the
embedded engine, the tree holding the same file `img1.jpg` (bytes `[7,7,7]`)
under `100APPLE` and `101APPLE` yields two SyncRecords keyed by the two
source paths (while the destination holds a single overwritten copy), so the
skip decision cannot depend on a content hash. -/
theorem C1_counterexample :
    (resultGlob c1Run).db.sync.length = 2 ∧
    (resultGlob c1Run).dest.length = 1 ∧
    sourcesOf (resultGlob c1Run).db = ["100APPLE/img1.jpg", "101APPLE/img1.jpg"] := by
  exact ⟨rfl, rfl, rfl⟩

/-- C1 (amended): deduplication is by two-component source path, not content:
a file is already-processed iff its `parent/name` string is among the ledger's
`source` keys; a file whose source path is recorded is skipped with no copy,
record, or counter change, a decision that reads only the path and the
ledger; and the two-identical-files tree produces two SyncRecords with one
destination copy. -/
theorem C1_dedup_by_source_path :
    (∀ (src : String) (db : Db), is_processed_source src db = true ↔ src ∈ sourcesOf db) ∧
    (∀ (env : Env) (parent : String) (f : File) (rest : List File) (g : Glob) (p s : Nat),
      is_unwanted_file (mkSource parent f) = .ok none →
      is_processed_source (mkSource parent f) g.db = true →
      fileLoop env parent (f :: rest) g p s =
        if env.interruptAt g.iter then (some .keyboardInterrupt, g, p, s)
        else fileLoop env parent rest { g with iter := g.iter + 1 } p s) ∧
    ((resultGlob c1Run).db.sync.length = 2 ∧ (resultGlob c1Run).dest.length = 1) := by
  refine ⟨is_processed_source_iff_mem, ?_, rfl, rfl⟩
  intro env parent f rest g p s hu hp
  exact fileLoop_step_processed env parent f rest g p s hu hp

/-- C1 witness: the skip lemma applied to the already-recorded source path
`100APPLE/img1.jpg` in the state left by the two-identical-files run. -/
theorem C1_dedup_by_source_path_witness :
    fileLoop noInterruptEnv "100APPLE" [c1File] (resultGlob c1Run) 0 0 =
      (none, { resultGlob c1Run with iter := (resultGlob c1Run).iter + 1 }, 0, 0) := by
  have h := C1_dedup_by_source_path.2.1 noInterruptEnv "100APPLE" c1File []
    (resultGlob c1Run) 0 0 rfl rfl
  rw [h]
  rfl

/-- C2 counterexample: the claim says the timestamp resolver never raises.
On the file `broken.png` whose content fails the PNG signature check,
`get_timestamp` propagates the extractor's `ValueError` instead of falling
back to the modification time. -/
theorem C2_counterexample : get_timestamp c2BadPng = .error .valueError := rfl

/-- C2 (amended): the resolver falls back to the filesystem modification
time when the format is unsupported or the structured extractor returns no
value, but an extractor exception propagates: `get_timestamp` has no handler
and is not total. -/
theorem C2_resolver_fallback (f : File) :
    (structuredResult f = none → get_timestamp f = .ok f.mtime) ∧
    (structuredResult f = some (.ok none) → get_timestamp f = .ok f.mtime) ∧
    (∀ t, structuredResult f = some (.ok (some t)) → get_timestamp f = .ok t) ∧
    (∀ e, structuredResult f = some (.error e) → get_timestamp f = .error e) := by
  refine ⟨fun h => ?_, fun h => ?_, fun t h => ?_, fun e h => ?_⟩ <;>
    (unfold get_timestamp; rw [h]; rfl)

/-- C2 witness: the fallback applied to a file with an unsupported
extension, which resolves to its modification time. -/
theorem C2_resolver_fallback_witness :
    get_timestamp c2PlainFile = .ok ⟨2023, 7, 15, 10, 0, 0⟩ :=
  (C2_resolver_fallback c2PlainFile).1 rfl

/-- C3 counterexample: the claim says a file whose content signature is not
an image or video is never copied or recorded.  The engine copies and
records `readme.txt` (plain ASCII bytes, no media signature), because the
filter inspects only the name's extension segment. -/
theorem C3_counterexample :
    sourcesOf (resultGlob c3Run).db = ["F/readme.txt"] ∧
    (resultGlob c3Run).dest = [("2024-01/readme.txt", [104, 105])] := by
  exact ⟨rfl, rfl⟩

/-- C3 (amended): qualification is by file-name extension, not content: the
filter excludes a file iff the lowercased segment after the first dot of its
two-component source name is `aae`, any excluded file is skipped without
hashing, copying or recording, and any file passing the filter (with a
resolvable timestamp) is copied and recorded whatever its content bytes. -/
theorem C3_extension_filter :
    (∀ src : String, is_unwanted_file src = .ok (some true) ↔
      ∃ a b tail, pySplitDot src = a :: b :: tail ∧ pyLower b = "aae") ∧
    (∀ (env : Env) (parent : String) (f : File) (rest : List File) (g : Glob) (p s : Nat),
      is_unwanted_file (mkSource parent f) = .ok (some true) →
      fileLoop env parent (f :: rest) g p s =
        if env.interruptAt g.iter then (some .keyboardInterrupt, g, p, s)
        else fileLoop env parent rest { g with iter := g.iter + 1 } p s) ∧
    (∀ (env : Env) (parent : String) (f : File) (rest : List File) (g : Glob)
      (p s : Nat) (t : DateTime),
      env.interruptAt g.iter = false →
      is_unwanted_file (mkSource parent f) = .ok none →
      is_processed_source (mkSource parent f) g.db = false →
      get_timestamp f = .ok t →
      env.copyErrno (mkSource parent f) = none →
      fileLoop env parent (f :: rest) g p s =
        fileLoop env parent rest
          { g with
            iter := g.iter + 1
            dest := destWrite g.dest (destRelPath t f.name) f.content
            db := insertOrIgnoreSync g.db ⟨mkSource parent f, destRelPath t f.name, t, g.now⟩
            now := g.now + 1 } (p + 1) (s + f.content.length)) := by
  refine ⟨?_, fileLoop_step_unwanted, fileLoop_step_process⟩
  intro src
  constructor
  · intro h
    unfold is_unwanted_file at h
    split at h
    next a ext tl heq =>
      split at h
      next hla => exact ⟨a, ext, tl, heq, hla⟩
      next => simp at h
    next => simp at h
  · rintro ⟨a, b, tl, hsp, hla⟩
    unfold is_unwanted_file
    rw [hsp]
    simp [hla]

/-- C3 witness: the exclusion lemma applied to the sidecar file
`IMG_001.AAE`, which the engine skips entirely. -/
theorem C3_extension_filter_witness :
    fileLoop noInterruptEnv "100APPLE" [c3AaeFile] emptyGlob 0 0 =
      (none, { emptyGlob with iter := 1 }, 0, 0) := by
  have h := C3_extension_filter.2.1 noInterruptEnv "100APPLE" c3AaeFile [] emptyGlob 0 0 rfl
  rw [h]
  rfl

/-- C4: the transfer step is atomic.  Executing any prefix of the transfer's
micro-steps (create the temporary file in the destination directory, stream
the source bytes into it, atomically rename it onto the final path) leaves
the final path either untouched or holding the complete byte-for-byte copy;
the full sequence always ends with the complete copy installed. -/
theorem C4_atomic_transfer (src : List Nat) (fs0 : TransferFs) (k : Nat) :
    ((runSteps fs0 ((transferSteps src).take k)).final = fs0.final ∨
      (runSteps fs0 ((transferSteps src).take k)).final = some src) ∧
    runSteps fs0 (transferSteps src) = { final := some src, temp := none } := by
  constructor
  · by_cases hk : k ≤ src.length + 1
    · left
      cases k with
      | zero => rfl
      | succ j =>
        have hj : j ≤ src.length := by omega
        have htake : (transferSteps src).take (j + 1) =
            TransferStep.createTemp :: (src.take j).map TransferStep.writeByte := by
          show ((TransferStep.createTemp :: src.map TransferStep.writeByte) ++
            [TransferStep.rename]).take (j + 1) = _
          rw [List.take_append_of_le_length (by simp [Nat.succ_le_succ hj]),
            List.take_succ_cons, ← List.map_take]
        rw [htake, runSteps_cons, final_runSteps_writes]
        rfl
    · right
      have hall : (transferSteps src).take k = transferSteps src := by
        apply List.take_of_length_le
        simp [transferSteps]
        omega
      rw [hall, runSteps_transfer]
  · exact runSteps_transfer src fs0

/-- C5 counterexample: the schemas `init_db` creates differ from the claimed
ones: the `sync` table is keyed by `source` and has no `fingerprint` column,
and the `run` table has `serial_number` and `exit_code` columns instead of a
`source` column. -/
theorem C5_counterexample :
    syncTableSchema ≠ specClaimedSyncSchema ∧ runTableSchema ≠ specClaimedRunSchema := by
  exact ⟨by decide, by decide⟩

/-- C5 (amended): the store holds exactly two tables, created on first use
with `CREATE TABLE IF NOT EXISTS`: `sync(source TEXT PRIMARY KEY, dest,
timestamp, inserted_at)` and `run(id TEXT PRIMARY KEY, serial_number, dest,
start, end, elapsed_time, exit_code, dest_size, dest_size_increment,
new_sync)`; on an existing store `init_db` only appends missing tables and
never drops or alters existing ones. -/
theorem C5_init_db_schema :
    init_db [] = [syncTableSchema, runTableSchema] ∧
    (∀ ts : List TableSchema, ∃ tail, init_db ts = ts ++ tail) ∧
    (∀ ts : List TableSchema,
      hasTable (init_db ts) "sync" = true ∧ hasTable (init_db ts) "run" = true) := by
  refine ⟨rfl, ?_, fun ts => ⟨?_, ?_⟩⟩
  · intro ts
    obtain ⟨t1, h1⟩ := createTableIfNotExists_extends ts syncTableSchema
    obtain ⟨t2, h2⟩ :=
      createTableIfNotExists_extends (createTableIfNotExists ts syncTableSchema) runTableSchema
    exact ⟨t1 ++ t2, by unfold init_db; rw [h2, h1, List.append_assoc]⟩
  · exact hasTable_createTableIfNotExists_mono _ runTableSchema "sync"
      (hasTable_createTableIfNotExists_self ts syncTableSchema)
  · exact hasTable_createTableIfNotExists_self _ runTableSchema

/-- C6: cancellation semantics.  Over a directory of fresh files, an
operator interrupt scheduled at file iteration `N` ends the run with exit
code 1 (the "stopped" outcome, not a propagated exception); the ledger then
holds exactly `N` SyncRecords — the first `N` files, each committed before
the next file began — and an uninterrupted second run over the same source
skips those `N` files, processing only the remaining ones. -/
theorem C6_cancellation (env1 env2 : Env) (fuel N : Nat) (dname : String)
    (files : List File) (dest0 : DestFs) (now0 iter2 now2 : Nat)
    (hfuel : 2 ≤ fuel)
    (hN1 : ∀ i, env1.interruptAt i = decide (i = N))
    (hce1 : ∀ src, env1.copyErrno src = none)
    (hclean : ∀ f ∈ files, cleanB ⟨[]⟩ dname f = true)
    (hnd : (files.map (mkSource dname)).Nodup)
    (hlen : N < files.length)
    (hni2 : ∀ i, env2.interruptAt i = false)
    (hce2 : ∀ src, env2.copyErrno src = none) :
    ∃ g1, engineF env1 fuel (.tree (.node dname [] files)) ⟨⟨[]⟩, dest0, 0, now0⟩ 0 0 =
        .ok (1, N, sizesOf (files.take N), g1) ∧
      g1.db.sync.length = N ∧
      sourcesOf g1.db = (files.take N).map (mkSource dname) ∧
      ∃ g2, engineF env2 fuel (.tree (.node dname [] files))
          ⟨g1.db, g1.dest, iter2, now2⟩ 0 0 =
          .ok (0, files.length - N, sizesOf (files.drop N), g2) ∧
        g2.db.sync.length = files.length := by
  obtain ⟨f2, rfl⟩ : ∃ f2, fuel = f2 + 1 + 1 := ⟨fuel - 2, by omega⟩
  -- run 1: the interrupt stops the file loop after N files
  obtain ⟨g1, hfl1, hsrc1⟩ := fileLoop_interrupted env1 dname N hN1 hce1 files
    ⟨⟨[]⟩, dest0, 0, now0⟩ 0 0 hclean hnd (by show (0 : Nat) ≤ N; omega)
    (by show N - 0 < files.length; omega)
  have hiter0 : (⟨⟨[]⟩, dest0, 0, now0⟩ : Glob).iter = 0 := rfl
  rw [hiter0, Nat.sub_zero] at hfl1 hsrc1
  rw [Nat.zero_add, Nat.zero_add] at hfl1
  have hempty : sourcesOf (⟨⟨[]⟩, dest0, 0, now0⟩ : Glob).db = [] := rfl
  rw [hempty, List.nil_append] at hsrc1
  have hd1 : engineF env1 (f2 + 1) (.dirs (sortDirs (DirTree.node dname [] files).subdirs))
      ⟨⟨[]⟩, dest0, 0, now0⟩ 0 0 = .ok (0, 0, 0, ⟨⟨[]⟩, dest0, 0, now0⟩) :=
    engineF_dirs_nil env1 f2 _ 0 0
  have hrun1 : engineF env1 (f2 + 1 + 1) (.tree (.node dname [] files))
      ⟨⟨[]⟩, dest0, 0, now0⟩ 0 0 = .ok (1, N, sizesOf (files.take N), g1) := by
    rw [engineF_tree_ok env1 (f2 + 1) (.node dname [] files) ⟨⟨[]⟩, dest0, 0, now0⟩ 0 0 0 0 0
      ⟨⟨[]⟩, dest0, 0, now0⟩ hd1, if_neg (by simp : ¬(0 : Nat) ≠ 0)]
    show (match fileLoop env1 dname files ⟨⟨[]⟩, dest0, 0, now0⟩ 0 0 with
      | (none, g2, p2, s2) => Except.ok (0, p2, s2, g2)
      | (some r, g2, p2, s2) => handleRaised r g2 p2 s2) = _
    rw [hfl1]
    rfl
  have hlen1 : g1.db.sync.length = N := by
    have hh : (sourcesOf g1.db).length = g1.db.sync.length := by simp [sourcesOf]
    rw [← hh, hsrc1, List.length_map, List.length_take]
    omega
  -- run 2: the first N files are settled, the rest are clean
  have hndsplit := List.nodup_append.mp
    (by rw [← List.map_append, List.take_append_drop]; exact hnd :
      ((files.take N).map (mkSource dname) ++ (files.drop N).map (mkSource dname)).Nodup)
  have hsettled2 : ∀ f ∈ files.take N, settledB g1.db (mkSource dname f) = true := by
    intro f hf
    obtain ⟨hu, _, _⟩ := cleanB_parts (hclean f (List.mem_of_mem_take hf))
    unfold settledB
    rw [hu]
    apply (is_processed_source_iff_mem _ _).mpr
    rw [hsrc1]
    exact List.mem_map_of_mem _ hf
  have hdisj : ∀ f ∈ files.drop N, mkSource dname f ∉ (files.take N).map (mkSource dname) := by
    intro f hf hmem
    exact hndsplit.2.2 hmem (List.mem_map_of_mem _ hf)
  have hclean2 : ∀ f ∈ files.drop N, cleanB g1.db dname f = true := by
    intro f hf
    obtain ⟨hu, _, ht⟩ := cleanB_parts (hclean f (List.mem_of_mem_drop hf))
    refine cleanB_intro hu ?_ ht
    cases hpp : is_processed_source (mkSource dname f) g1.db with
    | false => rfl
    | true =>
      exfalso
      have hmm := (is_processed_source_iff_mem _ _).mp hpp
      rw [hsrc1] at hmm
      exact hdisj f hf hmm
  have hset2 : ∀ f ∈ files,
      settledB g1.db (mkSource dname f) = true ∨ cleanB g1.db dname f = true := by
    intro f hf
    rw [← List.take_append_drop N files] at hf
    rcases List.mem_append.mp hf with hf | hf
    · exact Or.inl (hsettled2 f hf)
    · exact Or.inr (hclean2 f hf)
  have hfilter : files.filter (cleanB g1.db dname) = files.drop N := by
    conv_lhs => rw [← List.take_append_drop N files]
    rw [List.filter_append,
      List.filter_eq_nil_iff.mpr (fun f hf => by rw [settledB_not_clean (hsettled2 f hf)]; simp),
      List.filter_eq_self.mpr (fun f hf => hclean2 f hf), List.nil_append]
  have hnd3 : ((files.filter (cleanB g1.db dname)).map (mkSource dname)).Nodup := by
    rw [hfilter]
    exact hndsplit.2.1
  obtain ⟨g2, hfl2, hsrc2⟩ := fileLoop_mixed env2 dname hni2 hce2 files
    ⟨g1.db, g1.dest, iter2, now2⟩ 0 0 hset2 hnd3
  dsimp only at hfl2 hsrc2
  rw [hfilter] at hfl2 hsrc2
  rw [Nat.zero_add, Nat.zero_add, List.length_drop] at hfl2
  have hd2 : engineF env2 (f2 + 1) (.dirs (sortDirs (DirTree.node dname [] files).subdirs))
      ⟨g1.db, g1.dest, iter2, now2⟩ 0 0 = .ok (0, 0, 0, ⟨g1.db, g1.dest, iter2, now2⟩) :=
    engineF_dirs_nil env2 f2 _ 0 0
  have hrun2 : engineF env2 (f2 + 1 + 1) (.tree (.node dname [] files))
      ⟨g1.db, g1.dest, iter2, now2⟩ 0 0 =
      .ok (0, files.length - N, sizesOf (files.drop N), g2) := by
    rw [engineF_tree_ok env2 (f2 + 1) (.node dname [] files) ⟨g1.db, g1.dest, iter2, now2⟩ 0 0
      0 0 0 ⟨g1.db, g1.dest, iter2, now2⟩ hd2, if_neg (by simp : ¬(0 : Nat) ≠ 0)]
    show (match fileLoop env2 dname files ⟨g1.db, g1.dest, iter2, now2⟩ 0 0 with
      | (none, g2, p2, s2) => Except.ok (0, p2, s2, g2)
      | (some r, g2, p2, s2) => handleRaised r g2 p2 s2) = _
    rw [hfl2]
  have hlen2 : g2.db.sync.length = files.length := by
    have hh : (sourcesOf g2.db).length = g2.db.sync.length := by simp [sourcesOf]
    rw [← hh, hsrc2, List.length_append, hsrc1, List.length_map, List.length_map,
      List.length_take, List.length_drop]
    omega
  exact ⟨g1, hrun1, hlen1, hsrc1, g2, hrun2, hlen2⟩

/-- C6 witness: two clean files `a.jpg`, `b.jpg` in directory `D`, with the
interrupt scheduled at iteration 1: the first run stops after one file and
one record; the second run processes exactly the remaining file. -/
theorem C6_cancellation_witness :
    ∃ g1, engineF c6Env1 2 (.tree (.node "D" [] [c6FileA, c6FileB])) ⟨⟨[]⟩, [], 0, 0⟩ 0 0 =
        .ok (1, 1, sizesOf ([c6FileA, c6FileB].take 1), g1) ∧
      g1.db.sync.length = 1 ∧
      sourcesOf g1.db = ([c6FileA, c6FileB].take 1).map (mkSource "D") ∧
      ∃ g2, engineF noInterruptEnv 2 (.tree (.node "D" [] [c6FileA, c6FileB]))
          ⟨g1.db, g1.dest, 0, 0⟩ 0 0 =
          .ok (0, [c6FileA, c6FileB].length - 1, sizesOf ([c6FileA, c6FileB].drop 1), g2) ∧
        g2.db.sync.length = [c6FileA, c6FileB].length :=
  C6_cancellation c6Env1 noInterruptEnv 2 1 "D" [c6FileA, c6FileB] [] 0 0 0
    (by omega) (fun _ => rfl) (fun _ => rfl) (by decide) (by decide) (by decide)
    (fun _ => rfl) (fun _ => rfl)

/-- C7: the PNG timestamp extractor follows the claimed algorithm exactly:
a malformed 8-byte signature raises a hard error; otherwise the chunk loop
runs on the remaining bytes, reading each chunk as 4-byte big-endian length,
4-byte ASCII type, payload and 4 CRC bytes; a read of fewer than 4 length
bytes (truncation at end of file) yields no match rather than an error; an
`eXIf` chunk is searched for the digit pattern and its first match is parsed
as `YYYY:MM:DD HH:MM:SS`, while any other chunk is skipped; and the payload
search returns the leftmost match. -/
theorem C7_png_algorithm :
    (∀ content : List Nat, content.take 8 ≠ pngSignature →
      get_timestamp_by_png_metadata content = .error .valueError) ∧
    (∀ content : List Nat, content.take 8 = pngSignature →
      get_timestamp_by_png_metadata content = pngChunkLoop (content.drop 8)) ∧
    (∀ rest : List Nat, rest.length < 4 → pngChunkLoop rest = .ok none) ∧
    (∀ L T D C tail : List Nat, L.length = 4 → T.length = 4 → (∀ b ∈ T, b < 128) →
      C.length = 4 → D.length = fromBytesBE L →
      pngChunkLoop (L ++ T ++ D ++ C ++ tail) =
        if T = eXIfChunkType then
          match searchTs D with
          | some m => (parseTsBytes m).map some
          | none => pngChunkLoop tail
        else pngChunkLoop tail) ∧
    (∀ (D : List Nat) (i : Nat), matches19 (D.drop i) = true →
      (∀ j, j < i → matches19 (D.drop j) = false) →
      searchTs D = some ((D.drop i).take 19)) := by
  refine ⟨?_, ?_, pngChunkLoop_short, pngChunkLoop_chunk, searchTs_leftmost⟩
  · intro content h
    unfold get_timestamp_by_png_metadata
    rw [if_neg h]
  · intro content h
    unfold get_timestamp_by_png_metadata
    rw [if_pos h]

/-- C7 witness: the signature check rejects `[0,1,2]`, and a 2-byte stream
(truncated before a full length field) yields no match. -/
theorem C7_png_algorithm_witness :
    get_timestamp_by_png_metadata [0, 1, 2] = .error .valueError ∧
    pngChunkLoop [9, 9] = .ok none :=
  ⟨C7_png_algorithm.1 [0, 1, 2] (by decide), C7_png_algorithm.2.2.1 [9, 9] (by decide)⟩

/-- C8: idempotence.  If a run over a source tree completes (exit code 0),
then any uninterrupted second run over the unchanged tree against the
resulting destination state produces zero new SyncRecords and zero
additional bytes copied: its counters come back unchanged and the database
and destination tree are untouched. -/
theorem C8_idempotent (env1 env2 : Env) (fuel : Nat) (t : DirTree)
    (g0 g1 gmid : Glob) (p0 s0 p1 s1 p s : Nat)
    (h1 : engineF env1 fuel (.tree t) g0 p0 s0 = .ok (0, p1, s1, g1))
    (hni2 : ∀ i, env2.interruptAt i = false)
    (hg : gmid.db = g1.db) :
    ∃ g2, engineF env2 fuel (.tree t) gmid p s = .ok (0, p, s, g2) ∧
      g2.db = gmid.db ∧ g2.dest = gmid.dest := by
  have hset := engine_post env1 fuel (.tree t) g0 g1 p0 s0 p1 s1 h1
  rw [← hg] at hset
  exact engine_settled env2 hni2 fuel (.tree t) gmid p s hset

/-- C8 witness: the single-photo tree synced once (one record); the second
run returns counters 0, 0 and changes nothing. -/
theorem C8_idempotent_witness :
    ∃ g2, engineF noInterruptEnv 9 (.tree c8Tree) c8MidGlob 0 0 = .ok (0, 0, 0, g2) ∧
      g2.db = c8MidGlob.db ∧ g2.dest = c8MidGlob.dest :=
  C8_idempotent noInterruptEnv noInterruptEnv 9 c8Tree emptyGlob (resultGlob c8Run1)
    c8MidGlob 0 0 1 2 0 0 rfl (fun _ => rfl) rfl

/-- C9 counterexample: the claim says the ledger holds at most one
SyncRecord per content fingerprint.  Syncing the tree that holds the same
file `dup.jpg` (bytes `[4,4]`) under two subdirectories leaves two records —
one per source path — although only one distinct content exists (both
records point at the same overwritten destination copy). -/
theorem C9_counterexample :
    (resultGlob c9Run).db.sync.length = 2 ∧
    sourcesOf (resultGlob c9Run).db = ["300APPLE/dup.jpg", "301APPLE/dup.jpg"] ∧
    ∀ r ∈ (resultGlob c9Run).db.sync, r.dest = "2024-01/dup.jpg" := by
  exact ⟨rfl, rfl, by decide⟩

/-- C9 (amended): the sync ledger holds at most one SyncRecord per source
path, records are never updated or deleted by any engine operation (every
run leaves the prior rows as a prefix of the table), and the engine's only
write is the insert-if-absent `INSERT OR IGNORE`, a no-op when the source
key is present and a plain append when it is not. -/
theorem C9_append_only :
    (∀ (env : Env) (fuel : Nat) (task : Task) (g : Glob) (p s : Nat),
      (sourcesOf g.db).Nodup →
      (sourcesOf (resultGlob (engineF env fuel task g p s)).db).Nodup) ∧
    (∀ (env : Env) (fuel : Nat) (task : Task) (g : Glob) (p s : Nat),
      ∃ tail, (resultGlob (engineF env fuel task g p s)).db.sync = g.db.sync ++ tail) ∧
    (∀ (db : Db) (r : SyncRow),
      (is_processed_source r.source db = true → insertOrIgnoreSync db r = db) ∧
      (is_processed_source r.source db = false →
        (insertOrIgnoreSync db r).sync = db.sync ++ [r])) := by
  exact ⟨engineF_nodup, fun env fuel task g p s => engineF_extends env fuel task g p s,
    fun db r => ⟨insertOrIgnoreSync_present db r, insertOrIgnoreSync_absent db r⟩⟩

/-- C9 witness: uniqueness of the source key is preserved across the
two-identical-files run. -/
theorem C9_append_only_witness :
    (sourcesOf (resultGlob (engineF noInterruptEnv 9 (.tree c9Tree) emptyGlob 0 0)).db).Nodup :=
  C9_append_only.1 noInterruptEnv 9 (.tree c9Tree) emptyGlob 0 0 (by decide)

/-- C10: the filter `is_unwanted_file` raises `IndexError` on any source
string without a dot, so the engine run crashes on an extensionless file
name (the exception propagates through the frame handlers) rather than
classifying it; when the source string holds a dot, the filter returns the
truthy `True` exactly when the lowercased segment after the first dot is
`aae`, and returns `None` — not `False` — otherwise. -/
theorem C10_filter_indexerror :
    (∀ src : String, '.' ∉ src.toList → is_unwanted_file src = .error .indexError) ∧
    (∀ src : String, '.' ∈ src.toList →
      ∃ a b tail, pySplitDot src = a :: b :: tail ∧
        is_unwanted_file src = (if pyLower b = "aae" then .ok (some true) else .ok none)) ∧
    engineF noInterruptEnv 5 (.tree (.node "E" [] [c10File])) emptyGlob 0 0 =
      .error (.pyErr .indexError, ⟨⟨[]⟩, [], 1, 0⟩, 0, 0) := by
  refine ⟨?_, ?_, rfl⟩
  · intro src h
    unfold is_unwanted_file pySplitDot
    rw [splitOnDot_no_dot src.toList h]
    rfl
  · intro src h
    have h2 := splitOnDot_with_dot src.toList h
    obtain ⟨a, b, tail, hsp⟩ : ∃ a b tail, splitOnDot src.toList = a :: b :: tail := by
      rcases hq : splitOnDot src.toList with _ | ⟨a, _ | ⟨b, tail⟩⟩
      · rw [hq] at h2
        simp at h2
      · rw [hq] at h2
        simp at h2
      · exact ⟨a, b, tail, rfl⟩
    refine ⟨String.mk a, String.mk b, tail.map (fun l => String.mk l), ?_, ?_⟩
    · unfold pySplitDot
      rw [hsp]
      rfl
    · unfold is_unwanted_file pySplitDot
      rw [hsp]
      rfl

/-- C10 witness: `noext` (no dot) raises `IndexError`; `A/x.AAE` is excluded
through its first-dot segment. -/
theorem C10_filter_indexerror_witness :
    is_unwanted_file "noext" = .error .indexError ∧
    (∃ a b tail, pySplitDot "A/x.AAE" = a :: b :: tail ∧
      is_unwanted_file "A/x.AAE" =
        (if pyLower b = "aae" then .ok (some true) else .ok none)) :=
  ⟨C10_filter_indexerror.1 "noext" (by decide),
    C10_filter_indexerror.2.1 "A/x.AAE" (by decide)⟩

end Pyphotobackups
